import Mathlib

/-! # A verification development for `cal.c`

`cal.c` prompts for two `int`s, reads them with `scanf("%d %d", ...)` and
calls `sum`, `diff`, `prod` and `div`, each of which writes one line to the
standard output.

The embedding below is shallow:

* a C `int` is a Lean `Int` in the range `INT_MIN .. INT_MAX` (32 bits);
  `+`, `-` and `*` on `int` are followed by `wrap32`, the two's complement
  wrap-around (ISO C leaves signed overflow undefined; wrap-around is what
  the usual targets compute, and whatever is computed, `%d` prints a value of
  `int`);
* a C `float` is an IEEE 754 binary32 value, `F32`; the finite ones are kept
  as a sign and a magnitude counted in units of `2^-149`, the smallest
  positive binary32 number, so that every finite binary32 value is a natural
  number of units; conversion from `int` and division round to nearest, ties
  to even, and `float` expressions are evaluated in `float`
  (`FLT_EVAL_METHOD` is 0);
* the standard output is a `String` threaded through the functions, `printf`
  appends to it; `%d` is `fmt_d`, `%.2f` is `fmt_2f` (the exact binary value
  rounded to two decimals, ties to even, as a correctly rounding C library
  prints it);
* the standard input is a `List Char`; `scanf_dd` is the call of `scanf`,
  with the conversion of an out-of-range numeral as the GNU C library does
  it; the two `int` objects `num1` and `num2` of `main` are not initialised
  in the source, so their initial contents are parameters of `main`;
* `main` gives the standard output and the exit status of a run; `step`
  is the same body one statement at a time, on a configuration with the
  two streams and the two objects, so that what is written and read after
  each statement can be stated; `run` executes it with fuel and `run_init`
  shows that it ends with what `main` gives.

The definitions come first, then lemmas on the model, then the claims
`C1` to `C13` of the specification.
-/

set_option maxRecDepth 100000

namespace Cal

/-! ## The C type `int` -/

/-- The least value of a 32-bit `int`. -/
def INT_MIN : Int := -2147483648

/-- The greatest value of a 32-bit `int`. -/
def INT_MAX : Int := 2147483647

/-- The mathematical integer `x` is a value of the C type `int`. -/
def IsInt (x : Int) : Prop := INT_MIN ≤ x ∧ x ≤ INT_MAX

instance (x : Int) : Decidable (IsInt x) := by
  unfold IsInt; infer_instance

/-- Two's complement wrap-around of a mathematical integer to 32 bits. -/
def wrap32 (x : Int) : Int := (x + 2147483648) % 4294967296 - 2147483648

/-- The conversion `%d` of `printf`: an optional minus sign and the decimal
digits. -/
def fmt_d (v : Int) : String :=
  if v < 0 then "-" ++ Nat.repr v.natAbs else Nat.repr v.natAbs

/-! ## The C type `float` (IEEE 754 binary32) -/

/-- A binary32 value. `fin neg mag` is the finite number
`(-1)^neg * mag * 2^-149`; zero has both signs. -/
inductive F32 where
  | fin (neg : Bool) (mag : Nat)
  | inf (neg : Bool)
  | nan
  deriving DecidableEq

/-- The number of halvings that bring `n` below 2, at most `fuel` of them. -/
def log2Fuel : Nat → Nat → Nat
  | 0, _ => 0
  | fuel + 1, n => if 2 ≤ n then log2Fuel fuel (n / 2) + 1 else 0

/-- The position of the leading binary digit of `n`: `⌊log₂ n⌋` (0 for 0). -/
def ilog2 (n : Nat) : Nat := log2Fuel n n

/-- The integer nearest to `n / d`, a tie going to the even one. -/
def roundNE (n d : Nat) : Nat :=
  let q := n / d
  let r := n % d
  if 2 * r < d then q
  else if d < 2 * r then q + 1
  else if q % 2 = 0 then q else q + 1

/-- Round the non-negative rational `n / d`, counted in units of `2^-149`, to
binary32: 24 significant bits, nearest, ties to even; subnormal numbers are
the magnitudes below `2^23`, and a result of `2^128` or more is an infinity. -/
def F32.round (neg : Bool) (n d : Nat) : F32 :=
  let sh := ilog2 (n / d) - 23
  let mag := roundNE n (d * 2 ^ sh) * 2 ^ sh
  if mag < 2 ^ 128 * 2 ^ 149 then F32.fin neg mag else F32.inf neg

/-- The conversion `(float)a` of an `int`. -/
def F32.ofInt (a : Int) : F32 :=
  F32.round (decide (a < 0)) (a.natAbs * 2 ^ 149) 1

/-- The division of binary32 values. -/
def F32.div : F32 → F32 → F32
  | F32.nan, _ => F32.nan
  | _, F32.nan => F32.nan
  | F32.inf _, F32.inf _ => F32.nan
  | F32.inf s, F32.fin t _ => F32.inf (s != t)
  | F32.fin s _, F32.inf t => F32.fin (s != t) 0
  | F32.fin s m, F32.fin t n =>
    if n = 0 then (if m = 0 then F32.nan else F32.inf (s != t))
    else F32.round (s != t) (m * 2 ^ 149) n

/-- A number of hundredths `h`, written with two decimals: the integer part,
a point, and the two digits of `h % 100`. -/
def hundredths (h : Nat) : String :=
  Nat.repr (h / 100) ++ "." ++ Nat.repr (h / 10 % 10) ++ Nat.repr (h % 10)

/-- The conversion `%.2f` of `printf`, applied to a `float` argument (which
is promoted to `double` without change of value): the sign, then the
magnitude rounded to hundredths, ties to even. -/
def fmt_2f : F32 → String
  | F32.nan => "nan"
  | F32.inf neg => (if neg then "-" else "") ++ "inf"
  | F32.fin neg mag =>
    (if neg then "-" else "") ++ hundredths (roundNE (mag * 100) (2 ^ 149))

/-- The value of a run of decimal digits. -/
def digitsValue (cs : List Char) : Nat :=
  cs.foldl (fun acc c => acc * 10 + (c.toNat - 48)) 0

/-! ## The four operations -/

/-- `void sum(int a, int b)`: `printf("Sum: %d\n", a + b)`. -/
def sum (a b : Int) (out : String) : String :=
  out ++ "Sum: " ++ fmt_d (wrap32 (a + b)) ++ "\n"

/-- `void diff(int a, int b)`: `printf("Difference: %d\n", a - b)`. -/
def diff (a b : Int) (out : String) : String :=
  out ++ "Difference: " ++ fmt_d (wrap32 (a - b)) ++ "\n"

/-- `void prod(int a, int b)`: `printf("Product: %d\n", a * b)`. -/
def prod (a b : Int) (out : String) : String :=
  out ++ "Product: " ++ fmt_d (wrap32 (a * b)) ++ "\n"

/-- `void div(int a, int b)`: the quotient line when `b != 0`, the message
otherwise. In `(float)a / b` the divisor is converted to `float` too. -/
def div (a b : Int) (out : String) : String :=
  if b ≠ 0 then
    out ++ "Division: " ++ fmt_2f (F32.div (F32.ofInt a) (F32.ofInt b)) ++ "\n"
  else
    out ++ "Division by zero is not allowed.\n"

/-! ## `scanf("%d %d", &num1, &num2)` -/

/-- The white-space characters of the C locale. -/
def isspace (c : Char) : Bool :=
  c.toNat = 32 ∨ (9 ≤ c.toNat ∧ c.toNat ≤ 13)

/-- Skip leading white space. -/
def skipSpace : List Char → List Char
  | [] => []
  | c :: cs => if isspace c then skipSpace cs else c :: cs

/-- Read the longest run of decimal digits, accumulating its value. -/
def scanDigits : List Char → Nat → Nat × List Char
  | [], acc => (acc, [])
  | c :: cs, acc =>
    if c.isDigit then scanDigits cs (acc * 10 + (c.toNat - 48)) else (acc, c :: cs)

/-- The value stored for a decimal numeral that `%d` matched: the numeral is
converted as by `strtol` (saturating at the range of a 64-bit `long`) and
the result is stored in the `int`, keeping its low 32 bits. A numeral in
the range of `int` is stored unchanged. -/
def storeInt (v : Int) : Int :=
  wrap32 (max (-9223372036854775808) (min v 9223372036854775807))

/-- One `%d` directive: skip white space, then an optional sign and at least
one digit. `none` when the input ends or does not match. -/
def scan_d (s : List Char) : Option (Int × List Char) :=
  match skipSpace s with
  | [] => none
  | c :: cs =>
    if c = '-' then
      match cs with
      | [] => none
      | c2 :: _ =>
        if c2.isDigit then
          some (storeInt (-((scanDigits cs 0).1 : Int)), (scanDigits cs 0).2)
        else none
    else if c = '+' then
      match cs with
      | [] => none
      | c2 :: _ =>
        if c2.isDigit then
          some (storeInt ((scanDigits cs 0).1 : Int), (scanDigits cs 0).2)
        else none
    else if c.isDigit then
      some (storeInt ((scanDigits (c :: cs) 0).1 : Int), (scanDigits (c :: cs) 0).2)
    else none

/-- `scanf("%d %d", &num1, &num2)` on the input `stdin`: the contents of
`num1` and `num2` afterwards and the number of items assigned. An object
that is not assigned keeps its contents. -/
def scanf_dd (stdin : List Char) (num1 num2 : Int) : Int × Int × Nat :=
  match scan_d stdin with
  | none => (num1, num2, 0)
  | some (a, rest) =>
    match scan_d (skipSpace rest) with
    | none => (a, num2, 1)
    | some (b, _) => (a, b, 2)

/-! ## `main` -/

/-- The prompt written before the input is read. -/
def prompt : String := "Enter two numbers: "

/-- The four calls of `main` after the input has been read. -/
def results (a b : Int) (out : String) : String :=
  div a b (prod a b (diff a b (sum a b out)))

/-- `int main()`: the standard output at exit and the exit status. `num1`
and `num2` are the contents the two uninitialised objects happen to have;
the value returned by `scanf` is discarded; reaching the closing brace of
`main` returns 0. -/
def main (stdin : List Char) (num1 num2 : Int) : String × Int :=
  let out := "" ++ prompt
  let r := scanf_dd stdin num1 num2
  (results r.1 r.2.1 out, 0)


/-! ## The run of `main`, statement by statement -/

/-- What one `%d` directive leaves to read: the input after the numeral it
matched; when it does not match, the white space and a sign it has read
are gone and the character that stopped it is left (it is pushed back). -/
def scan_d_rest (s : List Char) : List Char :=
  match skipSpace s with
  | [] => []
  | c :: cs =>
    if c = '-' ∨ c = '+' then
      match cs with
      | [] => []
      | c2 :: _ => if c2.isDigit then (scanDigits cs 0).2 else cs
    else if c.isDigit then (scanDigits (c :: cs) 0).2
    else c :: cs

/-- What `scanf("%d %d", &num1, &num2)` leaves to read of the input. -/
def scanf_rest (stdin : List Char) : List Char :=
  match scan_d stdin with
  | none => scan_d_rest stdin
  | some (_, rest) =>
    match scan_d (skipSpace rest) with
    | none => scan_d_rest (skipSpace rest)
    | some (_, rest2) => rest2

/-- A configuration of a run of `main`: the statement to execute next
(`pc`, counted from the first statement of the body), what has been written
to the stream `stdout` so far, what is left to read of the stream `stdin`,
the contents of `num1` and `num2`, and the exit status once `main` has
returned. The streams are those of the C program: when the C library hands
the bytes of `stdout` on to a terminal or a pipe is its buffering and is
no part of the program text. -/
structure Config where
  pc : Nat
  stdout : String
  stdin : List Char
  num1 : Int
  num2 : Int
  status : Option Int
  deriving DecidableEq

/-- The configuration in which `main` is entered: nothing written, nothing
read, `num1` and `num2` with the contents they happen to have. -/
def init (stdin : List Char) (num1 num2 : Int) : Config :=
  { pc := 0, stdout := "", stdin := stdin, num1 := num1, num2 := num2, status := none }

/-- One statement of `main`, lines 5 to 10 of `cal.c` in order: the `printf`
of the prompt, the `scanf` (its value is discarded), the calls of `sum`,
`diff`, `prod` and `div`; then the closing brace, which returns 0. -/
def step (c : Config) : Config :=
  match c.pc with
  | 0 => { c with pc := 1, stdout := c.stdout ++ prompt }
  | 1 => { c with
      pc := 2
      stdin := scanf_rest c.stdin
      num1 := (scanf_dd c.stdin c.num1 c.num2).1
      num2 := (scanf_dd c.stdin c.num1 c.num2).2.1 }
  | 2 => { c with pc := 3, stdout := sum c.num1 c.num2 c.stdout }
  | 3 => { c with pc := 4, stdout := diff c.num1 c.num2 c.stdout }
  | 4 => { c with pc := 5, stdout := prod c.num1 c.num2 c.stdout }
  | 5 => { c with pc := 6, stdout := div c.num1 c.num2 c.stdout }
  | _ => { c with status := some 0 }

/-- The configuration after `k` steps. -/
def exec : Nat → Config → Config
  | 0, c => c
  | k + 1, c => exec k (step c)

/-- The run of `main` with at most `fuel` steps: the standard output and the
exit status once `main` has returned, `none` when the steps do not suffice. -/
def run : Nat → Config → Option (String × Int)
  | 0, _ => none
  | fuel + 1, c =>
    match c.status with
    | some e => some (c.stdout, e)
    | none => run fuel (step c)

/-! ## Lines of a text -/

/-- The lines of a text, each without the newline that ends it (a last line
that no newline ends is listed as well). -/
def splitLines : List Char → List (List Char)
  | [] => []
  | c :: cs =>
    if c = '\n' then [] :: splitLines cs
    else
      match splitLines cs with
      | [] => [[c]]
      | l :: ls => (c :: l) :: ls

/-! ## The quotient as the specification words it -/

/-- Follows the spec's words ("standard rounding"): the integer nearest to
`n / d`, a tie going away from zero. -/
def roundHalfAway (n d : Nat) : Nat := (2 * n + d) / (2 * d)

/-- Follows the spec's words ("a ÷ b rounded to 2 decimal places"): the exact
quotient of `a` by `b ≠ 0`, rounded to hundredths by `ties`, written with two
decimals and with a minus sign when the rounded quotient is negative. -/
def spec_quotient (ties : Nat → Nat → Nat) (a b : Int) : String :=
  (if a * b < 0 ∧ ties (a.natAbs * 100) b.natAbs ≠ 0 then "-" else "")
    ++ hundredths (ties (a.natAbs * 100) b.natAbs)

/-! ## The two input policies the specification names -/

/-- Follows the spec's words ("reject with an error message and non-zero
exit"): the run ends with a non-zero exit status. -/
def Rejects (run : String × Int) : Prop := run.2 ≠ 0

instance (run : String × Int) : Decidable (Rejects run) := by
  unfold Rejects; infer_instance

/-- Follows the spec's words ("fall back to zero-valued defaults"): the
standard output is the prompt and the four result lines, computed with 0 for
each of the two values that could not be read. -/
def ZeroDefaults (stdin : List Char) (run : String × Int) : Prop :=
  run.1 = prompt ++ results (scanf_dd stdin 0 0).1 (scanf_dd stdin 0 0).2.1 ""

instance (stdin : List Char) (run : String × Int) : Decidable (ZeroDefaults stdin run) := by
  unfold ZeroDefaults; infer_instance

/-! ## Arithmetic of the model -/

theorem wrap32_of_isInt {x : Int} (h : IsInt x) : wrap32 x = x := by
  unfold IsInt INT_MIN INT_MAX at h
  unfold wrap32
  omega

theorem isInt_wrap32 (x : Int) : IsInt (wrap32 x) := by
  unfold IsInt INT_MIN INT_MAX wrap32
  omega

theorem log2Fuel_le (fuel : Nat) : ∀ n k : Nat, n < 2 ^ (k + 1) → log2Fuel fuel n ≤ k := by
  induction fuel with
  | zero => intro n k _; simp [log2Fuel]
  | succ f ih =>
    intro n k h
    unfold log2Fuel
    split
    · rename_i h2
      cases k with
      | zero => simp at h; omega
      | succ k =>
        have : n / 2 < 2 ^ (k + 1) := by
          rw [Nat.div_lt_iff_lt_mul (by norm_num)]
          rw [pow_succ] at h; exact h
        have := ih (n / 2) k this
        omega
    · omega

theorem ilog2_le {n k : Nat} (h : n < 2 ^ (k + 1)) : ilog2 n ≤ k :=
  log2Fuel_le n n k h

theorem roundNE_mul_self (k d : Nat) (hd : 0 < d) : roundNE (k * d) d = k := by
  unfold roundNE
  simp [Nat.mul_div_cancel _ hd, hd]

theorem roundNE_scale (n d c : Nat) (hc : 0 < c) : roundNE (n * c) (d * c) = roundNE n d := by
  unfold roundNE
  rw [Nat.mul_div_mul_right _ _ hc, Nat.mul_mod_mul_right]
  have h1 : (2 * (n % d * c) < d * c) ↔ (2 * (n % d) < d) := by
    rw [← Nat.mul_assoc]; exact Nat.mul_lt_mul_right hc
  have h2 : (d * c < 2 * (n % d * c)) ↔ (d < 2 * (n % d)) := by
    rw [← Nat.mul_assoc]; exact Nat.mul_lt_mul_right hc
  simp only [h1, h2]

/-- Rounding to binary32 is exact on a number with at most 24 significant
bits. -/
theorem F32.round_exact (neg : Bool) (n d m s : Nat) (hd : 0 < d) (hm : m < 2 ^ 24)
    (hn : n = d * (m * 2 ^ s)) (hfin : m * 2 ^ s < 2 ^ 128 * 2 ^ 149) :
    F32.round neg n d = F32.fin neg (m * 2 ^ s) := by
  have hq : n / d = m * 2 ^ s := by rw [hn]; exact Nat.mul_div_cancel_left _ hd
  have hlt : m * 2 ^ s < 2 ^ (s + 23 + 1) := by
    have : (2:Nat) ^ (s + 23 + 1) = 2 ^ 24 * 2 ^ s := by
      rw [show s + 23 + 1 = 24 + s by omega, pow_add]
    rw [this]
    exact Nat.mul_lt_mul_of_pos_right hm (by positivity)
  have hsh : ilog2 (n / d) - 23 ≤ s := by
    have := ilog2_le (hq ▸ hlt)
    omega
  unfold F32.round
  generalize ilog2 (n / d) - 23 = sh at hsh
  have hsplit : n = (m * 2 ^ (s - sh)) * (d * 2 ^ sh) := by
    have : (2:Nat) ^ s = 2 ^ (s - sh) * 2 ^ sh := by
      rw [← pow_add]; congr 1; omega
    rw [hn, this]; ring
  have hr : roundNE n (d * 2 ^ sh) = m * 2 ^ (s - sh) := by
    rw [hsplit]; exact roundNE_mul_self _ _ (by positivity)
  have hmag : roundNE n (d * 2 ^ sh) * 2 ^ sh = m * 2 ^ s := by
    rw [hr, Nat.mul_assoc, ← pow_add]; congr 2; omega
  simp only [hmag, hfin, if_true]

theorem F32.round_exact_le (neg : Bool) (n d m s : Nat) (hd : 0 < d) (hm : m ≤ 2 ^ 24)
    (hn : n = d * (m * 2 ^ s)) (hfin : m * 2 ^ s < 2 ^ 128 * 2 ^ 149) :
    F32.round neg n d = F32.fin neg (m * 2 ^ s) := by
  rcases Nat.lt_or_ge m (2 ^ 24) with hlt | hge
  · exact F32.round_exact neg n d m s hd hlt hn hfin
  · have hm24 : m = 2 ^ 24 := Nat.le_antisymm hm hge
    have hrw : m * 2 ^ s = 2 ^ 23 * 2 ^ (s + 1) := by
      rw [hm24, pow_succ]; ring
    rw [hrw] at hn hfin ⊢
    exact F32.round_exact neg n d (2 ^ 23) (s + 1) hd (by norm_num) hn hfin

/-- An `int` of magnitude at most `2^24` converts to `float` without error. -/
theorem F32.ofInt_exact (a : Int) (ha : a.natAbs ≤ 2 ^ 24) :
    F32.ofInt a = F32.fin (decide (a < 0)) (a.natAbs * 2 ^ 149) := by
  unfold F32.ofInt
  apply F32.round_exact_le _ _ _ _ _ (by norm_num) ha (by ring)
  calc a.natAbs * 2 ^ 149 ≤ 2 ^ 24 * 2 ^ 149 := Nat.mul_le_mul_right _ ha
    _ < 2 ^ 128 * 2 ^ 149 := by norm_num

/-- The `float` quotient of two small `int`s whose exact quotient is
`m / 2^e` is that number. -/
theorem F32.div_ofInt_exact (a b : Int) (m e : Nat) (ha : a.natAbs ≤ 2 ^ 24)
    (hb : b.natAbs ≤ 2 ^ 24) (hb0 : b ≠ 0) (hm : m ≤ 2 ^ 24) (he : e ≤ 149)
    (h : a.natAbs * 2 ^ e = m * b.natAbs) :
    F32.div (F32.ofInt a) (F32.ofInt b)
      = F32.fin (decide (a < 0) != decide (b < 0)) (m * 2 ^ (149 - e)) := by
  rw [F32.ofInt_exact a ha, F32.ofInt_exact b hb]
  have hbpos : 0 < b.natAbs := Int.natAbs_pos.mpr hb0
  have hne : b.natAbs * 2 ^ 149 ≠ 0 := by positivity
  simp only [F32.div, hne, if_false]
  apply F32.round_exact_le _ _ _ _ _ (by positivity) hm
  · have h149 : (2:Nat) ^ 149 = 2 ^ e * 2 ^ (149 - e) := by
      rw [← pow_add]; congr 1; omega
    have key : a.natAbs * 2 ^ 149 = m * b.natAbs * 2 ^ (149 - e) := by
      rw [← h, Nat.mul_assoc, ← h149]
    rw [key]; ring
  · calc m * 2 ^ (149 - e) ≤ 2 ^ 24 * 2 ^ 149 :=
        Nat.mul_le_mul hm (Nat.pow_le_pow_right (by norm_num) (by omega))
      _ < 2 ^ 128 * 2 ^ 149 := by norm_num

/-- The hundredths printed for the magnitude `m / 2^e` are those of any
fraction `p / q` equal to it. -/
theorem roundNE_units (p q m e : Nat) (hq : 0 < q) (he : e ≤ 149)
    (h : p * 2 ^ e = m * q) :
    roundNE (m * 2 ^ (149 - e) * 100) (2 ^ 149) = roundNE (p * 100) q := by
  have h149 : (2:Nat) ^ 149 = 2 ^ e * 2 ^ (149 - e) := by
    rw [← pow_add]; congr 1; omega
  have e1 : roundNE (m * 2 ^ (149 - e) * 100) (2 ^ 149) = roundNE (m * 100) (2 ^ e) := by
    conv_lhs => rw [h149]
    rw [show m * 2 ^ (149 - e) * 100 = (m * 100) * 2 ^ (149 - e) by ring]
    exact roundNE_scale _ _ _ (by positivity)
  have e2 : roundNE (p * 100) q = roundNE (m * 100) (2 ^ e) := by
    rw [← roundNE_scale (p * 100) q (2 ^ e) (by positivity),
      ← roundNE_scale (m * 100) (2 ^ e) q hq]
    congr 1
    · rw [show p * 100 * 2 ^ e = (p * 2 ^ e) * 100 by ring, h]; ring
    · ring
  rw [e1, e2]

/-- The line of `div` for two small `int`s with a binary32 quotient. -/
theorem div_of_dyadic (a b : Int) (out : String) (m e : Nat) (ha : a.natAbs ≤ 2 ^ 24)
    (hb : b.natAbs ≤ 2 ^ 24) (hb0 : b ≠ 0) (hm : m ≤ 2 ^ 24) (he : e ≤ 149)
    (h : a.natAbs * 2 ^ e = m * b.natAbs) :
    div a b out = out ++ "Division: "
      ++ ((if (decide (a < 0) != decide (b < 0)) = true then "-" else "")
          ++ hundredths (roundNE (a.natAbs * 100) b.natAbs)) ++ "\n" := by
  unfold div
  rw [if_pos hb0, F32.div_ofInt_exact a b m e ha hb hb0 hm he h]
  simp only [fmt_2f]
  rw [roundNE_units a.natAbs b.natAbs m e (Int.natAbs_pos.mpr hb0) he h]

/-! ## The characters of the printed numbers -/

theorem digitChar_ne_newline : ∀ d : Nat, d < 10 → Nat.digitChar d ≠ '\n' := by
  decide

theorem toDigitsCore_no_newline (fuel : Nat) :
    ∀ (n : Nat) (ds : List Char), '\n' ∉ ds → '\n' ∉ Nat.toDigitsCore 10 fuel n ds := by
  induction fuel with
  | zero => intro n ds h; simpa [Nat.toDigitsCore] using h
  | succ f ih =>
    intro n ds h
    have hcons : '\n' ∉ Nat.digitChar (n % 10) :: ds := by
      intro hmem
      rcases List.mem_cons.mp hmem with h1 | h1
      · exact digitChar_ne_newline _ (Nat.mod_lt _ (by norm_num)) h1.symm
      · exact h h1
    simp only [Nat.toDigitsCore]
    split_ifs
    · exact hcons
    · exact ih _ _ hcons

theorem repr_no_newline (n : Nat) : '\n' ∉ (Nat.repr n).data := by
  unfold Nat.repr Nat.toDigits
  exact toDigitsCore_no_newline _ _ _ (by simp)

theorem fmt_d_no_newline (v : Int) : '\n' ∉ (fmt_d v).data := by
  unfold fmt_d
  split
  · rw [String.data_append, List.mem_append]
    rintro (h | h)
    · revert h; decide
    · exact repr_no_newline _ h
  · exact repr_no_newline _

theorem hundredths_no_newline (h : Nat) : '\n' ∉ (hundredths h).data := by
  unfold hundredths
  simp only [String.data_append, List.mem_append, not_or]
  exact ⟨⟨⟨repr_no_newline _, by decide⟩, repr_no_newline _⟩, repr_no_newline _⟩

theorem fmt_2f_no_newline (x : F32) : '\n' ∉ (fmt_2f x).data := by
  cases x with
  | nan => decide
  | inf neg => cases neg <;> decide
  | fin neg mag =>
    simp only [fmt_2f, String.data_append, List.mem_append, not_or]
    refine ⟨?_, hundredths_no_newline _⟩
    cases neg <;> decide

theorem splitLines_line (body rest : List Char) (h : '\n' ∉ body) :
    splitLines (body ++ '\n' :: rest) = body :: splitLines rest := by
  induction body with
  | nil => simp [splitLines]
  | cons c cs ih =>
    have hc : c ≠ '\n' := fun hc => h (hc ▸ List.mem_cons_self _ _)
    have hcs : '\n' ∉ cs := fun hm => h (List.mem_cons_of_mem _ hm)
    simp [splitLines, hc, ih hcs]

theorem log2Fuel_eq_log2 (fuel : Nat) : ∀ n : Nat, n ≤ fuel → log2Fuel fuel n = Nat.log2 n := by
  induction fuel with
  | zero =>
    intro n hn
    have : n = 0 := by omega
    subst this
    rw [Nat.log2]; rfl
  | succ f ih =>
    intro n hn
    rw [Nat.log2]
    unfold log2Fuel
    by_cases h2 : 2 ≤ n
    · rw [if_pos h2, if_pos h2, ih (n / 2) (by omega)]
    · rw [if_neg h2, if_neg h2]

/-- The model's `ilog2` is the binary logarithm of the library. -/
theorem ilog2_eq_log2 (n : Nat) : ilog2 n = Nat.log2 n :=
  log2Fuel_eq_log2 n n (Nat.le_refl n)

/-- The conversion of `int` to `float` rounds to 24 significant bits, ties
to even: `2^24 + 1` goes down to `2^24`, `2^24 + 3` goes up to `2^24 + 4`,
and `INT_MAX` goes up to `2^31`. -/
theorem F32.ofInt_examples :
    F32.ofInt 16777217 = F32.fin false (16777216 * 2 ^ 149)
      ∧ F32.ofInt 16777219 = F32.fin false (16777220 * 2 ^ 149)
      ∧ F32.ofInt (-16777219) = F32.fin true (16777220 * 2 ^ 149)
      ∧ F32.ofInt 2147483647 = F32.fin false (2147483648 * 2 ^ 149) := by
  decide

/-- The `float` nearest to `1 / 3` is `11184811 / 2^25`. -/
theorem F32.div_example :
    F32.div (F32.ofInt 1) (F32.ofInt 3) = F32.fin false (11184811 * 2 ^ 124) := by
  decide

/-! ## The error of rounding -/

theorem roundNE_close (n d : Nat) (hd : 0 < d) :
    2 * (roundNE n d * d) ≤ 2 * n + d ∧ 2 * n ≤ 2 * (roundNE n d * d) + d := by
  have hdm : n / d * d + n % d = n := by
    rw [Nat.mul_comm]; exact Nat.div_add_mod n d
  have hr : n % d < d := Nat.mod_lt n hd
  have hsucc : (n / d + 1) * d = n / d * d + d := by ring
  unfold roundNE
  simp only
  split_ifs with h1 h2 h3
  · omega
  · rw [hsucc]; omega
  · omega
  · rw [hsucc]; omega

theorem roundNE_eq_of_between (n d k : Nat) (h1 : 2 * (k * d) < 2 * n + d)
    (h2 : 2 * n < 2 * (k * d) + d) : roundNE n d = k := by
  have hd : 0 < d := by
    rcases Nat.eq_zero_or_pos d with h | h
    · subst h; simp at h1 h2
    · exact h
  obtain ⟨c1, c2⟩ := roundNE_close n d hd
  have e1 : roundNE n d < k + 1 := by
    apply Nat.lt_of_mul_lt_mul_right (a := d)
    have : (k + 1) * d = k * d + d := by ring
    omega
  have e2 : k < roundNE n d + 1 := by
    apply Nat.lt_of_mul_lt_mul_right (a := d)
    have : (roundNE n d + 1) * d = roundNE n d * d + d := by ring
    omega
  omega

theorem ilog2_pow_le {n : Nat} (h : n ≠ 0) : 2 ^ ilog2 n ≤ n := by
  rw [ilog2_eq_log2]; exact Nat.log2_self_le h

theorem le_ilog2 {n k : Nat} (h : 2 ^ k ≤ n) : k ≤ ilog2 n := by
  have hn : n ≠ 0 := by
    intro h0; subst h0
    have : 0 < 2 ^ k := by positivity
    omega
  rw [ilog2_eq_log2]; exact (Nat.le_log2 hn).mpr h

/-- Rounding a number of the normal range to binary32 changes it by at most
one part in `2^24`. -/
theorem F32.round_close (neg : Bool) (n d : Nat) (hd : 0 < d) (hlow : 2 ^ 23 * d ≤ n)
    (hhigh : n < 2 ^ 127 * 2 ^ 149 * d) :
    ∃ mag, F32.round neg n d = F32.fin neg mag
      ∧ 2 ^ 24 * (mag * d) ≤ (2 ^ 24 + 1) * n
      ∧ 2 ^ 24 * n ≤ 2 ^ 24 * (mag * d) + n := by
  have hq : 2 ^ 23 ≤ n / d := (Nat.le_div_iff_mul_le hd).mpr hlow
  have hq0 : n / d ≠ 0 := by
    have : 0 < 2 ^ 23 := by positivity
    omega
  have h23 : 23 ≤ ilog2 (n / d) := le_ilog2 hq
  have hpow : 2 ^ (ilog2 (n / d) - 23) * 2 ^ 23 ≤ n / d := by
    rw [← pow_add, Nat.sub_add_cancel h23]; exact ilog2_pow_le hq0
  unfold F32.round
  simp only
  generalize ilog2 (n / d) - 23 = sh at hpow
  have hD : 0 < d * 2 ^ sh := by positivity
  have hDn : 2 ^ 23 * (d * 2 ^ sh) ≤ n := by
    calc 2 ^ 23 * (d * 2 ^ sh) = (2 ^ sh * 2 ^ 23) * d := by ring
      _ ≤ (n / d) * d := Nat.mul_le_mul_right _ hpow
      _ ≤ n := Nat.div_mul_le_self n d
  obtain ⟨c1, c2⟩ := roundNE_close n (d * 2 ^ sh) hD
  have hmag : roundNE n (d * 2 ^ sh) * 2 ^ sh * d = roundNE n (d * 2 ^ sh) * (d * 2 ^ sh) := by
    ring
  have b1 : 2 ^ 24 * (roundNE n (d * 2 ^ sh) * 2 ^ sh * d) ≤ (2 ^ 24 + 1) * n := by
    rw [hmag]; omega
  have b2 : 2 ^ 24 * n ≤ 2 ^ 24 * (roundNE n (d * 2 ^ sh) * 2 ^ sh * d) + n := by
    rw [hmag]; omega
  have hfin : roundNE n (d * 2 ^ sh) * 2 ^ sh < 2 ^ 128 * 2 ^ 149 := by
    apply Nat.lt_of_mul_lt_mul_right (a := d)
    have : 2 ^ 128 * 2 ^ 149 * d = 2 * (2 ^ 127 * 2 ^ 149 * d) := by ring
    omega
  exact ⟨_, by rw [if_pos hfin], b1, b2⟩

/-- The hundredths printed for a `float` within one part in `2^24` of the
quotient `A / B` are those of the quotient, when `200 * A < 2^24` and the
quotient is not halfway between two hundredths. -/
theorem roundNE_of_close (A B P mag : Nat) (hB : 0 < B) (hP : 0 < P)
    (hA : 200 * A < 2 ^ 24) (hnt : ∀ j : Nat, 200 * A ≠ (2 * j + 1) * B)
    (F1 : 2 ^ 24 * (mag * B) ≤ (2 ^ 24 + 1) * (A * P))
    (F2 : 2 ^ 24 * (A * P) ≤ 2 ^ 24 * (mag * B) + A * P) :
    roundNE (mag * 100) P = roundNE (A * 100) B := by
  obtain ⟨k1, k2⟩ := roundNE_close (A * 100) B hB
  generalize roundNE (A * 100) B = k at k1 k2 ⊢
  have s1 : 2 * (k * B) ≠ 2 * (A * 100) + B := by
    intro e
    cases k with
    | zero => omega
    | succ j =>
      have e1 : (j + 1) * B = j * B + B := by ring
      have e2 : (2 * j + 1) * B = 2 * (j * B) + B := by ring
      exact hnt j (by omega)
  have s2 : 2 * (A * 100) ≠ 2 * (k * B) + B := by
    intro e
    have e2 : (2 * k + 1) * B = 2 * (k * B) + B := by ring
    exact hnt k (by omega)
  have F3 : 200 * (A * P) < 2 ^ 24 * P := by
    calc 200 * (A * P) = (200 * A) * P := by ring
      _ < 2 ^ 24 * P := Nat.mul_lt_mul_of_pos_right hA hP
  have F4 : 2 * (k * B * P) + P ≤ 200 * (A * P) + B * P := by
    calc 2 * (k * B * P) + P = (2 * (k * B) + 1) * P := by ring
      _ ≤ (2 * (A * 100) + B) * P := Nat.mul_le_mul_right _ (by omega)
      _ = 200 * (A * P) + B * P := by ring
  have F5 : 200 * (A * P) + P ≤ 2 * (k * B * P) + B * P := by
    calc 200 * (A * P) + P = (2 * (A * 100) + 1) * P := by ring
      _ ≤ (2 * (k * B) + B) * P := Nat.mul_le_mul_right _ (by omega)
      _ = 2 * (k * B * P) + B * P := by ring
  apply roundNE_eq_of_between
  · apply Nat.lt_of_mul_lt_mul_right (a := B)
    have e1 : 2 * (k * P) * B = 2 * (k * B * P) := by ring
    have e2 : (2 * (mag * 100) + P) * B = 200 * (mag * B) + B * P := by ring
    rw [e1, e2]
    omega
  · apply Nat.lt_of_mul_lt_mul_right (a := B)
    have e1 : 2 * (mag * 100) * B = 200 * (mag * B) := by ring
    have e2 : (2 * (k * P) + P) * B = 2 * (k * B * P) + B * P := by ring
    rw [e1, e2]
    omega

/-- The line of `div` for a small dividend whose quotient is not halfway
between two hundredths. -/
theorem div_of_nontie (a b : Int) (out : String) (ha : 200 * a.natAbs < 2 ^ 24)
    (hb : b.natAbs ≤ 2 ^ 24) (hb0 : b ≠ 0)
    (hnt : ∀ j : Nat, 200 * a.natAbs ≠ (2 * j + 1) * b.natAbs) :
    div a b out = out ++ "Division: "
      ++ ((if (decide (a < 0) != decide (b < 0)) = true then "-" else "")
          ++ hundredths (roundNE (a.natAbs * 100) b.natAbs)) ++ "\n" := by
  have hB : 0 < b.natAbs := Int.natAbs_pos.mpr hb0
  rcases Nat.eq_zero_or_pos a.natAbs with h0 | hA
  · exact div_of_dyadic a b out 0 0 (by omega) hb hb0 (by norm_num) (by norm_num)
      (by rw [h0]; simp)
  · have ha24 : a.natAbs ≤ 2 ^ 24 := by omega
    have hP : 0 < 2 ^ 149 := by positivity
    unfold div
    rw [if_pos hb0, F32.ofInt_exact a ha24, F32.ofInt_exact b hb]
    have hne : b.natAbs * 2 ^ 149 ≠ 0 := by positivity
    simp only [F32.div, hne, if_false]
    have hP47 : 2 ^ 23 * 2 ^ 24 ≤ 2 ^ 149 := by norm_num
    have hlow : 2 ^ 23 * (b.natAbs * 2 ^ 149) ≤ a.natAbs * 2 ^ 149 * 2 ^ 149 := by
      calc 2 ^ 23 * (b.natAbs * 2 ^ 149) = (2 ^ 23 * b.natAbs) * 2 ^ 149 := by ring
        _ ≤ (2 ^ 23 * 2 ^ 24) * 2 ^ 149 :=
            Nat.mul_le_mul_right _ (Nat.mul_le_mul_left _ hb)
        _ ≤ 2 ^ 149 * 2 ^ 149 := Nat.mul_le_mul_right _ hP47
        _ ≤ a.natAbs * 2 ^ 149 * 2 ^ 149 :=
            Nat.mul_le_mul_right _ (Nat.le_mul_of_pos_left _ hA)
    have hhigh : a.natAbs * 2 ^ 149 * 2 ^ 149 < 2 ^ 127 * 2 ^ 149 * (b.natAbs * 2 ^ 149) := by
      have h1 : a.natAbs < 2 ^ 127 * b.natAbs := by
        calc a.natAbs ≤ 2 ^ 24 := ha24
          _ < 2 ^ 127 := by norm_num
          _ ≤ 2 ^ 127 * b.natAbs := Nat.le_mul_of_pos_right _ hB
      calc a.natAbs * 2 ^ 149 * 2 ^ 149 = a.natAbs * (2 ^ 149 * 2 ^ 149) := by ring
        _ < 2 ^ 127 * b.natAbs * (2 ^ 149 * 2 ^ 149) :=
            Nat.mul_lt_mul_of_pos_right h1 (by positivity)
        _ = 2 ^ 127 * 2 ^ 149 * (b.natAbs * 2 ^ 149) := by ring
    obtain ⟨mag, hround, c1, c2⟩ := F32.round_close (decide (a < 0) != decide (b < 0))
      (a.natAbs * 2 ^ 149 * 2 ^ 149) (b.natAbs * 2 ^ 149) (by positivity) hlow hhigh
    have F1 : 2 ^ 24 * (mag * b.natAbs) ≤ (2 ^ 24 + 1) * (a.natAbs * 2 ^ 149) := by
      apply Nat.le_of_mul_le_mul_right _ hP
      calc 2 ^ 24 * (mag * b.natAbs) * 2 ^ 149 = 2 ^ 24 * (mag * (b.natAbs * 2 ^ 149)) := by ring
        _ ≤ (2 ^ 24 + 1) * (a.natAbs * 2 ^ 149 * 2 ^ 149) := c1
        _ = (2 ^ 24 + 1) * (a.natAbs * 2 ^ 149) * 2 ^ 149 := by ring
    have F2 : 2 ^ 24 * (a.natAbs * 2 ^ 149) ≤ 2 ^ 24 * (mag * b.natAbs) + a.natAbs * 2 ^ 149 := by
      apply Nat.le_of_mul_le_mul_right _ hP
      calc 2 ^ 24 * (a.natAbs * 2 ^ 149) * 2 ^ 149 = 2 ^ 24 * (a.natAbs * 2 ^ 149 * 2 ^ 149) := by
            ring
        _ ≤ 2 ^ 24 * (mag * (b.natAbs * 2 ^ 149)) + a.natAbs * 2 ^ 149 * 2 ^ 149 := c2
        _ = (2 ^ 24 * (mag * b.natAbs) + a.natAbs * 2 ^ 149) * 2 ^ 149 := by ring
    rw [hround]
    simp only [fmt_2f]
    rw [roundNE_of_close a.natAbs b.natAbs (2 ^ 149) mag hB hP ha hnt F1 F2]

/-- Every non-zero `int` converts to a finite non-zero `float` of its sign. -/
theorem F32.ofInt_fin (b : Int) (hb : IsInt b) (hb0 : b ≠ 0) :
    ∃ mag, mag ≠ 0 ∧ F32.ofInt b = F32.fin (decide (b < 0)) mag := by
  have hB : 0 < b.natAbs := Int.natAbs_pos.mpr hb0
  have hB31 : b.natAbs ≤ 2 ^ 31 := by
    unfold IsInt INT_MIN INT_MAX at hb
    omega
  have hlow : 2 ^ 23 * 1 ≤ b.natAbs * 2 ^ 149 := by
    calc 2 ^ 23 * 1 ≤ 1 * 2 ^ 149 := by norm_num
      _ ≤ b.natAbs * 2 ^ 149 := Nat.mul_le_mul_right _ hB
  have hhigh : b.natAbs * 2 ^ 149 < 2 ^ 127 * 2 ^ 149 * 1 := by
    calc b.natAbs * 2 ^ 149 ≤ 2 ^ 31 * 2 ^ 149 := Nat.mul_le_mul_right _ hB31
      _ < 2 ^ 127 * 2 ^ 149 * 1 := by norm_num
  obtain ⟨mag, hround, _, c2⟩ := F32.round_close (decide (b < 0)) (b.natAbs * 2 ^ 149) 1
    (by norm_num) hlow hhigh
  refine ⟨mag, ?_, hround⟩
  intro h0
  subst h0
  have hpos : 0 < b.natAbs * 2 ^ 149 := by positivity
  omega

/-- The line of `div` for the dividend 0: a zero with the sign of the
divisor. -/
theorem div_zero_dividend (b : Int) (out : String) (hb : IsInt b) (hb0 : b ≠ 0) :
    div 0 b out = out ++ "Division: " ++ ((if b < 0 then "-" else "") ++ "0.00") ++ "\n" := by
  obtain ⟨mag, hmag, hof⟩ := F32.ofInt_fin b hb hb0
  have h0 : F32.ofInt 0 = F32.fin false 0 := by decide
  have hr : F32.round (decide (b < 0)) 0 mag = F32.fin (decide (b < 0)) 0 := by
    have := F32.round_exact (decide (b < 0)) 0 mag 0 0 (Nat.pos_of_ne_zero hmag)
      (by norm_num) (by simp) (by norm_num)
    simpa using this
  have hh : hundredths (roundNE (0 * 100) (2 ^ 149)) = "0.00" := by decide
  unfold div
  rw [if_pos hb0, h0, hof]
  simp only [F32.div, hmag, if_false, Bool.false_bne, Nat.zero_mul, hr, fmt_2f]
  rw [Nat.zero_mul] at hh
  rw [hh]
  by_cases hneg : b < 0 <;> simp [hneg]

/-- A whole number of units is printed with the decimals `.00`. -/
theorem hundredths_whole (q : Nat) : hundredths (q * 100) = Nat.repr q ++ ".00" := by
  have h1 : q * 100 / 100 = q := Nat.mul_div_cancel q (by norm_num)
  have h2 : q * 100 / 10 % 10 = 0 := by omega
  have h3 : q * 100 % 10 = 0 := by omega
  have h0 : Nat.repr 0 = "0" := by decide
  unfold hundredths
  rw [h1, h2, h3, h0]
  apply String.ext
  simp [String.data_append]

/-! ## Decimal numerals determine the number -/

theorem digitChar_val : ∀ d : Nat, d < 10 →
    (Nat.digitChar d).toNat - 48 = d ∧ (Nat.digitChar d).isDigit = true := by
  decide

theorem digitsValue_append_singleton (pre : List Char) (c : Char) :
    digitsValue (pre ++ [c]) = digitsValue pre * 10 + (c.toNat - 48) := by
  unfold digitsValue
  rw [List.foldl_append]
  rfl

/-- The digits that `Nat.toDigitsCore` puts in front of `ds` are decimal
digits whose value is `n`. -/
theorem toDigitsCore_value (fuel : Nat) :
    ∀ (n : Nat) (ds : List Char), n < fuel →
      ∃ pre, Nat.toDigitsCore 10 fuel n ds = pre ++ ds ∧ digitsValue pre = n
        ∧ pre ≠ [] ∧ ∀ c ∈ pre, c.isDigit = true := by
  induction fuel with
  | zero => intro n ds h; omega
  | succ f ih =>
    intro n ds h
    obtain ⟨hv, hdig⟩ := digitChar_val (n % 10) (Nat.mod_lt _ (by norm_num))
    simp only [Nat.toDigitsCore]
    split_ifs with h0
    · refine ⟨[Nat.digitChar (n % 10)], rfl, ?_, by simp, ?_⟩
      · have e : digitsValue [Nat.digitChar (n % 10)]
            = 0 * 10 + ((Nat.digitChar (n % 10)).toNat - 48) := rfl
        rw [e, hv]; omega
      · intro c hc
        rw [List.mem_singleton] at hc
        rw [hc]; exact hdig
    · obtain ⟨pre, hpre, hval, _, hall⟩ := ih (n / 10) (Nat.digitChar (n % 10) :: ds) (by omega)
      refine ⟨pre ++ [Nat.digitChar (n % 10)], ?_, ?_, by simp, ?_⟩
      · rw [hpre]; simp
      · rw [digitsValue_append_singleton, hval, hv]; omega
      · intro c hc
        rcases List.mem_append.mp hc with h1 | h1
        · exact hall c h1
        · rw [List.mem_singleton] at h1
          rw [h1]; exact hdig

theorem repr_value (n : Nat) :
    digitsValue (Nat.repr n).data = n ∧ (Nat.repr n).data ≠ []
      ∧ ∀ c ∈ (Nat.repr n).data, c.isDigit = true := by
  obtain ⟨pre, hpre, hval, hne, hall⟩ := toDigitsCore_value (n + 1) n [] (Nat.lt_succ_self n)
  have e : (Nat.repr n).data = pre := by
    unfold Nat.repr Nat.toDigits
    rw [hpre, List.append_nil]
    rfl
  rw [e]
  exact ⟨hval, hne, hall⟩

theorem repr_injective {n m : Nat} (h : Nat.repr n = Nat.repr m) : n = m := by
  rw [← (repr_value n).1, ← (repr_value m).1, h]

theorem repr_ne_minus (n m : Nat) : Nat.repr n ≠ "-" ++ Nat.repr m := by
  intro h
  obtain ⟨_, hne, hall⟩ := repr_value n
  rw [h] at hall
  have : ('-' : Char).isDigit = true := hall '-' (by rw [String.data_append]; simp)
  revert this
  decide

/-- Distinct integers have distinct decimal numerals. -/
theorem fmt_d_injective {v w : Int} (h : fmt_d v = fmt_d w) : v = w := by
  unfold fmt_d at h
  split_ifs at h with hv hw hw
  · have h2 : (Nat.repr v.natAbs).data = (Nat.repr w.natAbs).data := by
      have := congrArg String.data h
      rw [String.data_append, String.data_append] at this
      exact List.append_cancel_left this
    have := repr_injective (String.ext h2)
    omega
  · exact absurd h.symm (repr_ne_minus _ _)
  · exact absurd h (repr_ne_minus _ _)
  · have := repr_injective h
    omega

/-! ## Every pair of `int`s can be read -/

theorem isDigit_not_special {c : Char} (h : c.isDigit = true) :
    isspace c = false ∧ c ≠ '-' ∧ c ≠ '+' := by
  have h1 : 48 ≤ c.toNat ∧ c.toNat ≤ 57 := by
    simpa [Char.isDigit, Char.toNat, UInt32.le_def, Fin.le_def] using h
  refine ⟨?_, ?_, ?_⟩
  · simp only [isspace, decide_eq_false_iff_not]
    omega
  · intro e; subst e
    revert h; decide
  · intro e; subst e
    revert h; decide

theorem scanDigits_append (pre rest : List Char) (hpre : ∀ c ∈ pre, c.isDigit = true)
    (hrest : ∀ c ∈ rest.head?, c.isDigit = false) :
    ∀ acc : Nat, scanDigits (pre ++ rest) acc
      = (pre.foldl (fun acc c => acc * 10 + (c.toNat - 48)) acc, rest) := by
  induction pre with
  | nil =>
    intro acc
    cases rest with
    | nil => rfl
    | cons c cs =>
      have hc : c.isDigit = false := hrest c (by simp)
      simp [scanDigits, hc]
  | cons c cs ih =>
    intro acc
    have hc : c.isDigit = true := hpre c (List.mem_cons_self _ _)
    have hcs : ∀ x ∈ cs, x.isDigit = true := fun x hx => hpre x (List.mem_cons_of_mem _ hx)
    simp only [List.cons_append, scanDigits, hc, if_true, List.foldl_cons]
    exact ih hcs _

theorem storeInt_of_isInt {v : Int} (h : IsInt v) : storeInt v = v := by
  unfold storeInt
  have h' := h
  unfold IsInt INT_MIN INT_MAX at h'
  have e1 : min v 9223372036854775807 = v := min_eq_left (by omega)
  have e2 : max (-9223372036854775808) v = v := max_eq_right (by omega)
  rw [e1, e2]
  exact wrap32_of_isInt h

/-- The directive `%d` reads back the decimal numeral of an `int`, up to the
first character that is no digit. -/
theorem scan_d_fmt_d (a : Int) (ha : IsInt a) (rest : List Char)
    (hrest : ∀ c ∈ rest.head?, c.isDigit = false) :
    scan_d ((fmt_d a).data ++ rest) = some (a, rest) := by
  obtain ⟨hval, hne, hall⟩ := repr_value a.natAbs
  obtain ⟨c, cs, hcs⟩ : ∃ c cs, (Nat.repr a.natAbs).data = c :: cs := by
    cases h : (Nat.repr a.natAbs).data with
    | nil => exact absurd h hne
    | cons c cs => exact ⟨c, cs, rfl⟩
  have hc : c.isDigit = true := hall c (by rw [hcs]; exact List.mem_cons_self _ _)
  obtain ⟨hsp, hminus, hplus⟩ := isDigit_not_special hc
  have hscan : scanDigits (c :: cs ++ rest) 0 = (a.natAbs, rest) := by
    have := scanDigits_append (c :: cs) rest (by rw [← hcs]; exact hall) hrest 0
    rw [this]
    have hv : digitsValue (c :: cs) = a.natAbs := by rw [← hcs]; exact hval
    unfold digitsValue at hv
    rw [hv]
  unfold fmt_d
  split_ifs with hneg
  · have hdata : ("-" ++ Nat.repr a.natAbs).data ++ rest = '-' :: (c :: cs ++ rest) := by
      rw [String.data_append, hcs]; rfl
    have hsm : isspace '-' = false := by decide
    rw [hdata]
    simp only [scan_d, skipSpace, hsm, if_true, hc, List.cons_append]
    rw [List.cons_append] at hscan
    simp only [hscan, Bool.false_eq_true, if_false]
    have e : -((a.natAbs : Nat) : Int) = a := by omega
    rw [e, storeInt_of_isInt ha]
    simp [hc]
  · rw [hcs]
    simp only [scan_d, skipSpace, hsp, List.cons_append, hminus, hplus, hc, if_true, if_false,
      Bool.false_eq_true]
    have hscan2 : scanDigits (c :: cs.append rest) 0 = (a.natAbs, rest) := hscan
    rw [hscan2]
    have e : ((a.natAbs : Nat) : Int) = a := by omega
    simp only [e, storeInt_of_isInt ha]

theorem skipSpace_idem (s : List Char) : skipSpace (skipSpace s) = skipSpace s := by
  induction s with
  | nil => rfl
  | cons c cs ih =>
    by_cases h : isspace c = true
    · simp only [skipSpace, h, if_true]; exact ih
    · simp only [skipSpace, h, if_false, Bool.false_eq_true]

theorem scan_d_skipSpace (s : List Char) : scan_d (skipSpace s) = scan_d s := by
  unfold scan_d
  rw [skipSpace_idem]

theorem scan_d_blank (s : List Char) : scan_d (' ' :: s) = scan_d s := by
  have h : skipSpace (' ' :: s) = skipSpace s := by
    have hsp : isspace ' ' = true := by decide
    simp only [skipSpace, hsp, if_true]
  unfold scan_d
  rw [h]

/-- Every pair of `int`s is read by `scanf` from its decimal numerals,
separated by a blank and followed by a newline. -/
theorem scanf_dd_reads (a b : Int) (ha : IsInt a) (hb : IsInt b) (n1 n2 : Int) :
    scanf_dd (fmt_d a ++ " " ++ fmt_d b ++ "\n").data n1 n2 = (a, b, 2) := by
  have hdata : (fmt_d a ++ " " ++ fmt_d b ++ "\n").data
      = (fmt_d a).data ++ ' ' :: ((fmt_d b).data ++ ['\n']) := by
    simp only [String.data_append, List.append_assoc]
    rfl
  have h1 : scan_d ((fmt_d a).data ++ ' ' :: ((fmt_d b).data ++ ['\n']))
      = some (a, ' ' :: ((fmt_d b).data ++ ['\n'])) :=
    scan_d_fmt_d a ha _ (by simp)
  have h2 : scan_d (skipSpace (' ' :: ((fmt_d b).data ++ ['\n']))) = some (b, ['\n']) := by
    rw [scan_d_skipSpace, scan_d_blank]
    exact scan_d_fmt_d b hb _ (by simp)
  rw [hdata]
  simp only [scanf_dd, h1, h2]

/-! ## The lines written by the four operations -/

theorem sum_data (a b : Int) (out : String) :
    (sum a b out).data = out.data ++ (("Sum: ".data ++ (fmt_d (wrap32 (a + b))).data) ++ '\n' :: []) := by
  simp [sum, String.data_append]

theorem diff_data (a b : Int) (out : String) :
    (diff a b out).data
      = out.data ++ (("Difference: ".data ++ (fmt_d (wrap32 (a - b))).data) ++ '\n' :: []) := by
  simp [diff, String.data_append]

theorem prod_data (a b : Int) (out : String) :
    (prod a b out).data
      = out.data ++ (("Product: ".data ++ (fmt_d (wrap32 (a * b))).data) ++ '\n' :: []) := by
  simp [prod, String.data_append]

theorem div_data (a b : Int) (out : String) :
    (div a b out).data
      = out.data ++ ((if b ≠ 0 then
            "Division: ".data ++ (fmt_2f (F32.div (F32.ofInt a) (F32.ofInt b))).data
          else "Division by zero is not allowed.".data) ++ '\n' :: []) := by
  unfold div
  split
  · simp [String.data_append]
  · rw [String.data_append]; rfl

theorem label_no_newline :
    '\n' ∉ "Sum: ".data ∧ '\n' ∉ "Difference: ".data ∧ '\n' ∉ "Product: ".data
      ∧ '\n' ∉ "Division: ".data ∧ '\n' ∉ "Division by zero is not allowed.".data
      ∧ '\n' ∉ "Enter two numbers: ".data := by
  decide

theorem splitLines_four (l1 l2 l3 l4 : List Char) (h1 : '\n' ∉ l1) (h2 : '\n' ∉ l2)
    (h3 : '\n' ∉ l3) (h4 : '\n' ∉ l4) :
    splitLines ([] ++ (l1 ++ '\n' :: []) ++ (l2 ++ '\n' :: []) ++ (l3 ++ '\n' :: [])
      ++ (l4 ++ '\n' :: [])) = [l1, l2, l3, l4] := by
  simp only [List.nil_append, List.append_assoc, List.cons_append]
  rw [splitLines_line _ _ h1, splitLines_line _ _ h2, splitLines_line _ _ h3,
    splitLines_line _ _ h4]
  rfl

theorem results_data (a b : Int) (out : String) :
    (results a b out).data
      = out.data ++ (("Sum: ".data ++ (fmt_d (wrap32 (a + b))).data) ++ '\n' :: [])
        ++ (("Difference: ".data ++ (fmt_d (wrap32 (a - b))).data) ++ '\n' :: [])
        ++ (("Product: ".data ++ (fmt_d (wrap32 (a * b))).data) ++ '\n' :: [])
        ++ ((if b ≠ 0 then
            "Division: ".data ++ (fmt_2f (F32.div (F32.ofInt a) (F32.ofInt b))).data
          else "Division by zero is not allowed.".data) ++ '\n' :: []) := by
  unfold results
  rw [div_data, prod_data, diff_data, sum_data]

/-- The four lines that the calls of `main` write, in order. -/
theorem splitLines_results (a b : Int) :
    splitLines (results a b "").data
      = [ "Sum: ".data ++ (fmt_d (wrap32 (a + b))).data,
          "Difference: ".data ++ (fmt_d (wrap32 (a - b))).data,
          "Product: ".data ++ (fmt_d (wrap32 (a * b))).data,
          if b ≠ 0 then
            "Division: ".data ++ (fmt_2f (F32.div (F32.ofInt a) (F32.ofInt b))).data
          else "Division by zero is not allowed.".data ] := by
  obtain ⟨h1, h2, h3, h4, h5, _⟩ := label_no_newline
  have hd := fmt_d_no_newline
  have hf := fmt_2f_no_newline
  rw [results_data]
  apply splitLines_four
  · simp only [List.mem_append, not_or]; exact ⟨h1, hd _⟩
  · simp only [List.mem_append, not_or]; exact ⟨h2, hd _⟩
  · simp only [List.mem_append, not_or]; exact ⟨h3, hd _⟩
  · split
    · simp only [List.mem_append, not_or]; exact ⟨h4, hf _⟩
    · exact h5

theorem division_label_ne_message (x : List Char) :
    "Division: ".data ++ x ≠ "Division by zero is not allowed.".data := by
  intro h
  simp at h

theorem not_division_label_lines (x y z : List Char) :
    ¬ "Division: ".data <+: "Sum: ".data ++ x
    ∧ ¬ "Division: ".data <+: "Difference: ".data ++ y
    ∧ ¬ "Division: ".data <+: "Product: ".data ++ z
    ∧ ¬ "Division: ".data <+: "Division by zero is not allowed.".data := by
  refine ⟨?_, ?_, ?_, ?_⟩ <;> simp

theorem message_ne_lines (x y z : List Char) :
    "Division by zero is not allowed.".data ≠ "Sum: ".data ++ x
    ∧ "Division by zero is not allowed.".data ≠ "Difference: ".data ++ y
    ∧ "Division by zero is not allowed.".data ≠ "Product: ".data ++ z := by
  refine ⟨?_, ?_, ?_⟩ <;> simp

/-- C1. For all `int`s `a`, `b`: the fourth of the lines that the four calls
write is exactly `Division by zero is not allowed.` if and only if `b = 0`;
when `b = 0` no line starts with `Division: `, and when `b ≠ 0` no line is
the message. What `div` appends is the message line if and only if `b = 0`,
and then it does not depend on `a`: no quotient is computed. -/
theorem div_zero_message (a b : Int) :
    ((splitLines (results a b "").data)[3]? = some "Division by zero is not allowed.".data
        ↔ b = 0)
    ∧ (b = 0 → ∀ l ∈ splitLines (results a b "").data, ¬ "Division: ".data <+: l)
    ∧ (b ≠ 0 → "Division by zero is not allowed.".data ∉ splitLines (results a b "").data)
    ∧ (∀ out : String, div a b out = out ++ "Division by zero is not allowed.\n" ↔ b = 0) := by
  rw [splitLines_results]
  obtain ⟨p1, p2, p3, p4⟩ := not_division_label_lines (fmt_d (wrap32 (a + b))).data
    (fmt_d (wrap32 (a - b))).data (fmt_d (wrap32 (a * b))).data
  obtain ⟨m1, m2, m3⟩ := message_ne_lines (fmt_d (wrap32 (a + b))).data
    (fmt_d (wrap32 (a - b))).data (fmt_d (wrap32 (a * b))).data
  refine ⟨?_, ?_, ?_, ?_⟩
  · by_cases hb : b = 0
    · simp [hb]
    · simp only [hb, ne_eq, not_false_eq_true, if_true, iff_false]
      intro h
      simp at h
  · intro hb l hl
    rw [if_neg (by simpa using hb)] at hl
    simp only [List.mem_cons, List.mem_singleton, List.not_mem_nil, or_false] at hl
    rcases hl with h | h | h | h <;> rw [h] <;> assumption
  · intro hb hmem
    rw [if_pos hb] at hmem
    simp only [List.mem_cons, List.mem_singleton, List.not_mem_nil, or_false] at hmem
    rcases hmem with h | h | h | h
    · exact m1 h
    · exact m2 h
    · exact m3 h
    · exact division_label_ne_message _ h.symm
  · intro out
    constructor
    · intro h
      by_contra hb
      have hd := congrArg String.data h
      rw [div_data, if_pos hb, String.data_append] at hd
      have hc := List.append_cancel_left hd
      simp at hc
    · intro hb
      simp [div, hb]

/-! ## The integer operations -/

/-- Two lines with the same label that are equal show the same number. -/
theorem line_number_eq {l : String} {v w : Int}
    (h : l ++ fmt_d v ++ "\n" = l ++ fmt_d w ++ "\n") : v = w := by
  have hd := congrArg String.data h
  simp only [String.data_append, List.append_assoc] at hd
  have h1 := List.append_cancel_left hd
  have h2 := List.append_cancel_right h1
  exact fmt_d_injective (String.ext h2)

/-- A number outside the range of `int` is printed by no `%d`. -/
theorem line_not_int {l : String} {x : Int} (hx : ¬ IsInt x) (v : Int) (hv : IsInt v) :
    l ++ fmt_d v ++ "\n" ≠ l ++ fmt_d x ++ "\n" := by
  intro h
  exact hx (line_number_eq h ▸ hv)

/-- C2, the claim refuted: for the `int`s `2147483647` and `1` the line of
`sum` is `Sum: -2147483648`, not the sum `2147483648` in decimal; and no
value of `int` that `%d` could be given prints as that sum. -/
theorem sum_overflow_counterexample :
    IsInt 2147483647 ∧ IsInt 1 ∧ sum 2147483647 1 "" = "Sum: -2147483648\n"
      ∧ sum 2147483647 1 "" ≠ "Sum: " ++ fmt_d (2147483647 + 1) ++ "\n"
      ∧ ∀ v : Int, IsInt v →
          "Sum: " ++ fmt_d v ++ "\n" ≠ "Sum: " ++ fmt_d (2147483647 + 1) ++ "\n" :=
  ⟨by decide, by decide, by decide, by decide, line_not_int (by decide)⟩

/-- C2, amended. For all `int`s `a`, `b` whose sum `a + b` is in the range of
`int`, `sum` appends the line `Sum: ` followed by `a + b` in decimal. -/
theorem sum_exact (a b : Int) (out : String) (h : IsInt (a + b)) :
    sum a b out = out ++ "Sum: " ++ fmt_d (a + b) ++ "\n" := by
  unfold sum
  rw [wrap32_of_isInt h]

/-- C2, amended, at `a = 7`, `b = 2`: the line is `Sum: 9`. -/
theorem sum_exact_witness :
    IsInt (7 + 2) ∧ sum 7 2 "" = "" ++ "Sum: " ++ fmt_d (7 + 2) ++ "\n" :=
  ⟨by decide, sum_exact 7 2 "" (by decide)⟩

/-- C3, the claim refuted: for the `int`s `-2147483648` and `1` the line of
`diff` is `Difference: 2147483647`, not the difference `-2147483649`; and
no value of `int` that `%d` could be given prints as that difference. -/
theorem diff_overflow_counterexample :
    IsInt (-2147483648) ∧ IsInt 1
      ∧ diff (-2147483648) 1 "" = "Difference: 2147483647\n"
      ∧ diff (-2147483648) 1 "" ≠ "Difference: " ++ fmt_d (-2147483648 - 1) ++ "\n"
      ∧ ∀ v : Int, IsInt v →
          "Difference: " ++ fmt_d v ++ "\n"
            ≠ "Difference: " ++ fmt_d (-2147483648 - 1) ++ "\n" :=
  ⟨by decide, by decide, by decide, by decide, line_not_int (by decide)⟩

/-- C3, amended. For all `int`s `a`, `b` whose difference `a - b` is in the
range of `int`, `diff` appends the line `Difference: ` followed by `a - b` in
decimal. -/
theorem diff_exact (a b : Int) (out : String) (h : IsInt (a - b)) :
    diff a b out = out ++ "Difference: " ++ fmt_d (a - b) ++ "\n" := by
  unfold diff
  rw [wrap32_of_isInt h]

/-- C3, amended, at `a = 7`, `b = 2`: the line is `Difference: 5`. -/
theorem diff_exact_witness :
    IsInt (7 - 2) ∧ diff 7 2 "" = "" ++ "Difference: " ++ fmt_d (7 - 2) ++ "\n" :=
  ⟨by decide, diff_exact 7 2 "" (by decide)⟩

/-- C4, the claim refuted: for the `int`s `65536` and `32768` the line of
`prod` is `Product: -2147483648`, not the product `2147483648`; and no value
of `int` that `%d` could be given prints as that product. -/
theorem prod_overflow_counterexample :
    IsInt 65536 ∧ IsInt 32768 ∧ prod 65536 32768 "" = "Product: -2147483648\n"
      ∧ prod 65536 32768 "" ≠ "Product: " ++ fmt_d (65536 * 32768) ++ "\n"
      ∧ ∀ v : Int, IsInt v →
          "Product: " ++ fmt_d v ++ "\n" ≠ "Product: " ++ fmt_d (65536 * 32768) ++ "\n" :=
  ⟨by decide, by decide, by decide, by decide, line_not_int (by decide)⟩

/-- C4, amended. For all `int`s `a`, `b` whose product `a * b` is in the
range of `int`, `prod` appends the line `Product: ` followed by `a * b` in
decimal. -/
theorem prod_exact (a b : Int) (out : String) (h : IsInt (a * b)) :
    prod a b out = out ++ "Product: " ++ fmt_d (a * b) ++ "\n" := by
  unfold prod
  rw [wrap32_of_isInt h]

/-- C4, amended, at `a = 7`, `b = 2`: the line is `Product: 14`. -/
theorem prod_exact_witness :
    IsInt (7 * 2) ∧ prod 7 2 "" = "" ++ "Product: " ++ fmt_d (7 * 2) ++ "\n" :=
  ⟨by decide, prod_exact 7 2 "" (by decide)⟩

/-! ## The division line -/

/-- C5, the claim refuted: for the `int`s `16777217` and `1` the line of `div`
is `Division: 16777216.00`, while the exact quotient rounded to two decimal
places is `16777217.00` (under either rounding of ties). -/
theorem div_float_counterexample :
    IsInt 16777217 ∧ IsInt 1 ∧ (1 : Int) ≠ 0
      ∧ div 16777217 1 "" = "Division: 16777216.00\n"
      ∧ spec_quotient roundHalfAway 16777217 1 = "16777217.00"
      ∧ spec_quotient roundNE 16777217 1 = "16777217.00"
      ∧ div 16777217 1 "" ≠ "Division: " ++ spec_quotient roundHalfAway 16777217 1 ++ "\n" := by
  decide

/-- The quotient `3 / 200 = 0.015` is printed as `0.01`: the nearest `float`
is below `0.015`, and the exact quotient rounds to `0.02` under either
rounding of ties. -/
theorem div_inexact_example :
    div 3 200 "" = "Division: 0.01\n"
      ∧ spec_quotient roundHalfAway 3 200 = "0.02"
      ∧ spec_quotient roundNE 3 200 = "0.02" := by
  decide

/-- The quotient `1 / 8 = 0.125` is a `float`; the tie is printed as `0.12`
(ties to even), while rounding half away from zero gives `0.13`. -/
theorem div_tie_example :
    div 1 8 "" = "Division: 0.12\n" ∧ spec_quotient roundHalfAway 1 8 = "0.13" := by
  decide

/-- C5, amended. For all `int`s `a`, `b` with `b ≠ 0` and `|b| ≤ 2^24` such
that either (i) `200 * |a| < 2^24` and `a / b` is not halfway between two
consecutive hundredths (`200 * |a|` is no odd multiple of `|b|`), or (ii)
`|a| ≤ 2^24` and the exact quotient is a binary32 number (`|a| / |b| = m / 2^e`
with `m ≤ 2^24` and `e ≤ 149`, as for `a = 7`, `b = 2`): the line of `div` is
`Division: `, then a `-` when exactly one of `a`, `b` is negative, then
`|a| / |b|` rounded to the nearest hundredth (a tie, which only (ii) admits,
going to the even one). -/
theorem div_rounded_quotient (a b : Int) (out : String) (hb0 : b ≠ 0)
    (hb : b.natAbs ≤ 2 ^ 24)
    (h : (200 * a.natAbs < 2 ^ 24 ∧ ∀ j : Nat, 200 * a.natAbs ≠ (2 * j + 1) * b.natAbs)
      ∨ (a.natAbs ≤ 2 ^ 24
          ∧ ∃ m e : Nat, m ≤ 2 ^ 24 ∧ e ≤ 149 ∧ a.natAbs * 2 ^ e = m * b.natAbs)) :
    div a b out = out ++ "Division: "
      ++ ((if (decide (a < 0) != decide (b < 0)) = true then "-" else "")
          ++ hundredths (roundNE (a.natAbs * 100) b.natAbs)) ++ "\n" := by
  rcases h with ⟨ha, hnt⟩ | ⟨ha, m, e, hm, he, hme⟩
  · exact div_of_nontie a b out ha hb hb0 hnt
  · exact div_of_dyadic a b out m e ha hb hb0 hm he hme

/-- C5, amended, at `a = 7`, `b = 2` (a binary32 quotient, `Division: 3.50`)
and at `a = -1`, `b = 3` (no tie, `Division: -0.33`). -/
theorem div_rounded_quotient_witness :
    (div 7 2 "" = "" ++ "Division: "
        ++ ((if (decide ((7 : Int) < 0) != decide ((2 : Int) < 0)) = true then "-" else "")
          ++ hundredths (roundNE ((7 : Int).natAbs * 100) (2 : Int).natAbs)) ++ "\n"
      ∧ div 7 2 "" = "Division: 3.50\n")
    ∧ (div (-1) 3 "" = "" ++ "Division: "
        ++ ((if (decide ((-1 : Int) < 0) != decide ((3 : Int) < 0)) = true then "-" else "")
          ++ hundredths (roundNE ((-1 : Int).natAbs * 100) (3 : Int).natAbs)) ++ "\n"
      ∧ div (-1) 3 "" = "Division: -0.33\n") :=
  ⟨⟨div_rounded_quotient 7 2 "" (by decide) (by decide)
      (Or.inr ⟨by decide, 7, 1, by decide, by decide, by decide⟩), by decide⟩,
   ⟨div_rounded_quotient (-1) 3 "" (by decide) (by decide)
      (Or.inl ⟨by decide, fun j => by
        have h1 : (-1 : Int).natAbs = 1 := rfl
        have h3 : (3 : Int).natAbs = 3 := rfl
        rw [h1, h3]; omega⟩), by decide⟩⟩

/-! ## The output of `main` -/

theorem results_append (a b : Int) (out : String) :
    results a b out = out ++ results a b "" := by
  apply String.ext
  have h0 : "".data = [] := rfl
  rw [String.data_append, results_data, results_data, h0]
  simp only [List.nil_append, List.append_assoc]

theorem getLast_line (x l : List Char) : (x ++ (l ++ '\n' :: [])).getLast? = some '\n' := by
  rw [← List.append_assoc]
  exact List.getLast?_concat _

theorem fmt_d_zero : fmt_d 0 = "0" := by decide

/-- C6. For all `int`s `a`, `b` the four calls of `main` append exactly four
newline-terminated lines, in this order: a line `Sum: ...`, a line
`Difference: ...`, a line `Product: ...`, and a line that is `Division: ...`
or the zero-division message. -/
theorem results_four_lines (a b : Int) (out : String) :
    ∃ s d p q : String,
      results a b out = out ++ ("Sum: " ++ s ++ "\n") ++ ("Difference: " ++ d ++ "\n")
        ++ ("Product: " ++ p ++ "\n") ++ (q ++ "\n")
      ∧ '\n' ∉ s.data ∧ '\n' ∉ d.data ∧ '\n' ∉ p.data ∧ '\n' ∉ q.data
      ∧ ((∃ t, q = "Division: " ++ t) ∨ q = "Division by zero is not allowed.")
      ∧ (splitLines (results a b "").data).length = 4 := by
  refine ⟨fmt_d (wrap32 (a + b)), fmt_d (wrap32 (a - b)), fmt_d (wrap32 (a * b)),
    if b ≠ 0 then "Division: " ++ fmt_2f (F32.div (F32.ofInt a) (F32.ofInt b))
    else "Division by zero is not allowed.", ?_, fmt_d_no_newline _, fmt_d_no_newline _,
    fmt_d_no_newline _, ?_, ?_, ?_⟩
  · unfold results div prod diff sum
    apply String.ext
    split <;> simp [String.data_append, List.append_assoc]
  · split
    · rw [String.data_append, List.mem_append, not_or]
      exact ⟨label_no_newline.2.2.2.1, fmt_2f_no_newline _⟩
    · exact label_no_newline.2.2.2.2.1
  · by_cases hb : b = 0
    · right; simp [hb]
    · left; exact ⟨_, if_pos hb⟩
  · rw [splitLines_results]; rfl

theorem scan_d_isInt {s : List Char} {v : Int} {r : List Char}
    (h : scan_d s = some (v, r)) : IsInt v := by
  unfold scan_d at h
  repeat' split at h
  all_goals first
    | (simp only [Option.some.injEq, Prod.mk.injEq] at h
       rw [← h.1]; exact isInt_wrap32 _)
    | simp at h

theorem scanf_dd_isInt {stdin : List Char} {n1 n2 a b : Int}
    (h : scanf_dd stdin n1 n2 = (a, b, 2)) : IsInt a ∧ IsInt b := by
  unfold scanf_dd at h
  split at h
  · simp at h
  · rename_i a0 rest h1
    split at h
    · simp at h
    · rename_i b0 rest2 h2
      simp only [Prod.mk.injEq, and_true] at h
      exact ⟨h.1 ▸ scan_d_isInt h1, h.2 ▸ scan_d_isInt h2⟩

/-- C7. Whenever `scanf` reads an `int` `a` and then `0`, the standard output
of `main` is the prompt followed by the lines `Sum: a`, `Difference: a`,
`Product: 0` and `Division by zero is not allowed.`. -/
theorem main_second_zero (stdin : List Char) (n1 n2 a : Int)
    (h : scanf_dd stdin n1 n2 = (a, 0, 2)) :
    (main stdin n1 n2).1 = "Enter two numbers: " ++ "Sum: " ++ fmt_d a ++ "\n"
      ++ "Difference: " ++ fmt_d a ++ "\n" ++ "Product: 0\n"
      ++ "Division by zero is not allowed.\n" := by
  have ha : IsInt a := (scanf_dd_isInt h).1
  have e1 : wrap32 (a + 0) = a := by rw [Int.add_zero]; exact wrap32_of_isInt ha
  have e2 : wrap32 (a - 0) = a := by rw [Int.sub_zero]; exact wrap32_of_isInt ha
  have e3 : wrap32 (a * 0) = 0 := by rw [Int.mul_zero]; rfl
  simp only [main, h, results, sum, diff, prod, div, e1, e2, e3, fmt_d_zero]
  apply String.ext
  simp [String.data_append, prompt]

/-- C7 on the input `5 0`. -/
theorem main_second_zero_witness :
    scanf_dd "5 0".data 0 0 = (5, 0, 2)
      ∧ (main "5 0".data 0 0).1 = "Enter two numbers: " ++ "Sum: " ++ fmt_d 5 ++ "\n"
        ++ "Difference: " ++ fmt_d 5 ++ "\n" ++ "Product: 0\n"
        ++ "Division by zero is not allowed.\n" :=
  ⟨by decide, main_second_zero "5 0".data 0 0 5 (by decide)⟩

/-- The text that the four calls append, spelled out. -/
theorem results_text (a b : Int) (out : String) :
    results a b out = out ++ "Sum: " ++ fmt_d (wrap32 (a + b)) ++ "\n"
      ++ "Difference: " ++ fmt_d (wrap32 (a - b)) ++ "\n"
      ++ "Product: " ++ fmt_d (wrap32 (a * b)) ++ "\n"
      ++ (if b ≠ 0 then
            "Division: " ++ fmt_2f (F32.div (F32.ofInt a) (F32.ofInt b)) ++ "\n"
          else "Division by zero is not allowed.\n") := by
  unfold results div prod diff sum
  apply String.ext
  by_cases hb : b = 0
  · simp [hb, String.data_append, List.append_assoc]
  · simp [hb, String.data_append, List.append_assoc]

/-- A directive `%d` that matches leaves to read what `scan_d` returns. -/
theorem scan_d_rest_of_some {s : List Char} {v : Int} {r : List Char}
    (h : scan_d s = some (v, r)) : scan_d_rest s = r := by
  unfold scan_d at h
  unfold scan_d_rest
  cases hs : skipSpace s with
  | nil => rw [hs] at h; simp at h
  | cons c cs =>
    rw [hs] at h
    simp only at h ⊢
    by_cases hm : c = '-'
    · subst hm
      cases cs with
      | nil => simp at h
      | cons c2 cs2 =>
        by_cases hd : c2.isDigit = true
        · simp [hd] at h ⊢
          exact h.2
        · simp [hd] at h
    · by_cases hp : c = '+'
      · subst hp
        cases cs with
        | nil => simp at h
        | cons c2 cs2 =>
          by_cases hd : c2.isDigit = true
          · simp [hd] at h ⊢
            exact h.2
          · simp [hd] at h
      · by_cases hd : c.isDigit = true
        · simp [hm, hp, hd] at h ⊢
          exact h.2
        · simp [hm, hp, hd] at h

/-- After `scanf` has read two `int`s from their decimal numerals, only the
newline that followed them is left to read. -/
theorem scanf_rest_reads (a b : Int) (ha : IsInt a) (hb : IsInt b) :
    scanf_rest (fmt_d a ++ " " ++ fmt_d b ++ "\n").data = ['\n'] := by
  have hdata : (fmt_d a ++ " " ++ fmt_d b ++ "\n").data
      = (fmt_d a).data ++ ' ' :: ((fmt_d b).data ++ ['\n']) := by
    simp only [String.data_append, List.append_assoc]
    rfl
  have h1 : scan_d ((fmt_d a).data ++ ' ' :: ((fmt_d b).data ++ ['\n']))
      = some (a, ' ' :: ((fmt_d b).data ++ ['\n'])) :=
    scan_d_fmt_d a ha _ (by simp)
  have h2 : scan_d (skipSpace (' ' :: ((fmt_d b).data ++ ['\n']))) = some (b, ['\n']) := by
    rw [scan_d_skipSpace, scan_d_blank]
    exact scan_d_fmt_d b hb _ (by simp)
  rw [hdata]
  simp only [scanf_rest, h1, h2]

/-- The run of `main` halts at its eighth step, with the output and the
status that `main` gives. -/
theorem run_init (stdin : List Char) (n1 n2 : Int) (fuel : Nat) (hfuel : 8 ≤ fuel) :
    run fuel (init stdin n1 n2) = some (main stdin n1 n2) := by
  obtain ⟨k, rfl⟩ : ∃ k, fuel = k + 8 := ⟨fuel - 8, by omega⟩
  simp only [run, step, init, main, results]

theorem empty_append_prompt : "" ++ prompt = "Enter two numbers: " := by decide

/-- The output of `main` is the prompt and the text of the four calls. -/
theorem main_text (stdin : List Char) (n1 n2 a b : Int)
    (ha : (scanf_dd stdin n1 n2).1 = a) (hb : (scanf_dd stdin n1 n2).2.1 = b) :
    main stdin n1 n2
      = ("Enter two numbers: " ++ "Sum: " ++ fmt_d (wrap32 (a + b)) ++ "\n"
          ++ "Difference: " ++ fmt_d (wrap32 (a - b)) ++ "\n"
          ++ "Product: " ++ fmt_d (wrap32 (a * b)) ++ "\n"
          ++ (if b ≠ 0 then
                "Division: " ++ fmt_2f (F32.div (F32.ofInt a) (F32.ofInt b)) ++ "\n"
              else "Division by zero is not allowed.\n"), 0) := by
  subst ha hb
  simp only [main]
  rw [results_text, empty_append_prompt]

/-- C8. For every input, with `a` and `b` the contents of `num1` and `num2`
after `scanf`: the first statement of `main` writes exactly the prompt
`Enter two numbers: ` (no newline in it) while nothing of the input is read
yet; the second statement reads the input and writes nothing; only then
the result lines are written, one by each of the next four statements; and
the whole standard output of `main` is the prompt immediately followed by
these four newline-terminated lines and nothing else. -/
theorem main_prompt_before_input (stdin : List Char) (n1 n2 a b : Int)
    (ha : (scanf_dd stdin n1 n2).1 = a) (hb : (scanf_dd stdin n1 n2).2.1 = b) :
    ((exec 1 (init stdin n1 n2)).stdout = "Enter two numbers: "
      ∧ (exec 1 (init stdin n1 n2)).stdin = stdin)
    ∧ ((exec 2 (init stdin n1 n2)).stdout = "Enter two numbers: "
      ∧ (exec 2 (init stdin n1 n2)).stdin = scanf_rest stdin
      ∧ (exec 2 (init stdin n1 n2)).num1 = a
      ∧ (exec 2 (init stdin n1 n2)).num2 = b)
    ∧ (exec 3 (init stdin n1 n2)).stdout
        = "Enter two numbers: " ++ "Sum: " ++ fmt_d (wrap32 (a + b)) ++ "\n"
    ∧ (exec 4 (init stdin n1 n2)).stdout
        = "Enter two numbers: " ++ "Sum: " ++ fmt_d (wrap32 (a + b)) ++ "\n"
          ++ "Difference: " ++ fmt_d (wrap32 (a - b)) ++ "\n"
    ∧ (exec 5 (init stdin n1 n2)).stdout
        = "Enter two numbers: " ++ "Sum: " ++ fmt_d (wrap32 (a + b)) ++ "\n"
          ++ "Difference: " ++ fmt_d (wrap32 (a - b)) ++ "\n"
          ++ "Product: " ++ fmt_d (wrap32 (a * b)) ++ "\n"
    ∧ (exec 6 (init stdin n1 n2)).stdout
        = "Enter two numbers: " ++ "Sum: " ++ fmt_d (wrap32 (a + b)) ++ "\n"
          ++ "Difference: " ++ fmt_d (wrap32 (a - b)) ++ "\n"
          ++ "Product: " ++ fmt_d (wrap32 (a * b)) ++ "\n"
          ++ (if b ≠ 0 then
                "Division: " ++ fmt_2f (F32.div (F32.ofInt a) (F32.ofInt b)) ++ "\n"
              else "Division by zero is not allowed.\n")
    ∧ (main stdin n1 n2).1 = (exec 6 (init stdin n1 n2)).stdout
    ∧ (main stdin n1 n2).1 = "Enter two numbers: " ++ results a b ""
    ∧ '\n' ∉ "Enter two numbers: ".data
    ∧ (splitLines (results a b "").data).length = 4
    ∧ (results a b "").data.getLast? = some '\n' := by
  have hp := empty_append_prompt
  have h6 : (exec 6 (init stdin n1 n2)).stdout = results a b ("" ++ prompt) := by
    subst ha hb
    simp only [exec, step, init, results]
  have hmain := main_text stdin n1 n2 a b ha hb
  subst ha hb
  refine ⟨⟨hp, rfl⟩, ⟨hp, rfl, rfl, rfl⟩, ?_, ?_, ?_, ?_, ?_, ?_,
    label_no_newline.2.2.2.2.2, ?_, ?_⟩
  · simp only [exec, step, init, sum, hp]
  · simp only [exec, step, init, sum, diff, hp]
  · simp only [exec, step, init, sum, diff, prod, hp]
  · rw [h6, results_text, hp]
  · rw [h6]; rfl
  · simp only [main]
    rw [results_append, hp]
  · rw [splitLines_results]; rfl
  · rw [results_data]
    exact getLast_line _ _

/-- C8 on the input `7 2`: the prompt is written while `7 2` is still to be
read, and the whole output is the prompt and the four lines. -/
theorem main_prompt_before_input_witness :
    (scanf_dd "7 2".data 0 0).1 = 7 ∧ (scanf_dd "7 2".data 0 0).2.1 = 2
      ∧ ((exec 1 (init "7 2".data 0 0)).stdout = "Enter two numbers: "
        ∧ (exec 1 (init "7 2".data 0 0)).stdin = "7 2".data)
      ∧ ((exec 2 (init "7 2".data 0 0)).stdout = "Enter two numbers: "
        ∧ (exec 2 (init "7 2".data 0 0)).stdin = scanf_rest "7 2".data
        ∧ (exec 2 (init "7 2".data 0 0)).num1 = 7
        ∧ (exec 2 (init "7 2".data 0 0)).num2 = 2)
      ∧ scanf_rest "7 2".data = []
      ∧ (exec 6 (init "7 2".data 0 0)).stdout
          = "Enter two numbers: Sum: 9\nDifference: 5\nProduct: 14\nDivision: 3.50\n" :=
  ⟨by decide, by decide,
    (main_prompt_before_input "7 2".data 0 0 7 2 (by decide) (by decide)).1,
    (main_prompt_before_input "7 2".data 0 0 7 2 (by decide) (by decide)).2.1,
    by decide,
    (main_prompt_before_input "7 2".data 0 0 7 2 (by decide) (by decide)).2.2.2.2.2.1.trans
      (by decide)⟩

/-- C9. Whenever `scanf` reads two `int`s `a` and `b` (also `b = 0`): the
run of `main` halts, within 8 steps, with the exit status 0 and the output
that is the prompt and the four result lines for `a` and `b`; after the six
statements the four lines are written and `main` has not returned yet, and
the next step, the closing brace, returns 0 and writes nothing. -/
theorem main_halts_status_zero (stdin : List Char) (n1 n2 a b : Int)
    (h : scanf_dd stdin n1 n2 = (a, b, 2)) :
    (∀ fuel : Nat, 8 ≤ fuel → run fuel (init stdin n1 n2)
        = some ("Enter two numbers: " ++ "Sum: " ++ fmt_d (wrap32 (a + b)) ++ "\n"
          ++ "Difference: " ++ fmt_d (wrap32 (a - b)) ++ "\n"
          ++ "Product: " ++ fmt_d (wrap32 (a * b)) ++ "\n"
          ++ (if b ≠ 0 then
                "Division: " ++ fmt_2f (F32.div (F32.ofInt a) (F32.ofInt b)) ++ "\n"
              else "Division by zero is not allowed.\n"), 0))
    ∧ (exec 6 (init stdin n1 n2)).status = none
    ∧ (exec 6 (init stdin n1 n2)).stdout
        = "Enter two numbers: " ++ "Sum: " ++ fmt_d (wrap32 (a + b)) ++ "\n"
          ++ "Difference: " ++ fmt_d (wrap32 (a - b)) ++ "\n"
          ++ "Product: " ++ fmt_d (wrap32 (a * b)) ++ "\n"
          ++ (if b ≠ 0 then
                "Division: " ++ fmt_2f (F32.div (F32.ofInt a) (F32.ofInt b)) ++ "\n"
              else "Division by zero is not allowed.\n")
    ∧ (exec 7 (init stdin n1 n2)).status = some 0
    ∧ (exec 7 (init stdin n1 n2)).stdout = (exec 6 (init stdin n1 n2)).stdout
    ∧ main stdin n1 n2
        = ("Enter two numbers: " ++ "Sum: " ++ fmt_d (wrap32 (a + b)) ++ "\n"
          ++ "Difference: " ++ fmt_d (wrap32 (a - b)) ++ "\n"
          ++ "Product: " ++ fmt_d (wrap32 (a * b)) ++ "\n"
          ++ (if b ≠ 0 then
                "Division: " ++ fmt_2f (F32.div (F32.ofInt a) (F32.ofInt b)) ++ "\n"
              else "Division by zero is not allowed.\n"), 0)
    ∧ (splitLines (results a b "").data).length = 4 := by
  have ha : (scanf_dd stdin n1 n2).1 = a := by rw [h]
  have hb : (scanf_dd stdin n1 n2).2.1 = b := by rw [h]
  have hmain := main_text stdin n1 n2 a b ha hb
  have h6 : (exec 6 (init stdin n1 n2)).stdout = (main stdin n1 n2).1 := by
    simp only [exec, step, init, results, main]
  refine ⟨fun fuel hfuel => ?_, ?_, ?_, ?_, ?_, hmain, ?_⟩
  · rw [run_init stdin n1 n2 fuel hfuel, hmain]
  · simp only [exec, step, init]
  · rw [h6, hmain]
  · simp only [exec, step, init]
  · simp only [exec, step, init]
  · rw [splitLines_results]; rfl

/-- C9 on the inputs `7 2` and `5 0`: the run halts with status 0 after the
four lines, and 7 steps do not suffice. -/
theorem main_halts_status_zero_witness :
    scanf_dd "7 2".data 0 0 = (7, 2, 2) ∧ scanf_dd "5 0".data 0 0 = (5, 0, 2)
      ∧ run 8 (init "7 2".data 0 0)
          = some ("Enter two numbers: Sum: 9\nDifference: 5\nProduct: 14\nDivision: 3.50\n", 0)
      ∧ run 8 (init "5 0".data 0 0)
          = some ("Enter two numbers: Sum: 5\nDifference: 5\nProduct: 0\n"
              ++ "Division by zero is not allowed.\n", 0)
      ∧ run 7 (init "7 2".data 0 0) = none :=
  ⟨by decide, by decide,
    ((main_halts_status_zero "7 2".data 0 0 7 2 (by decide)).1 8 (by decide)).trans (by decide),
    ((main_halts_status_zero "5 0".data 0 0 5 0 (by decide)).1 8 (by decide)).trans (by decide),
    by decide⟩

/-! ## Input that does not hold two integers -/

/-- C10, the claim refuted: on the input `x`, with `num1` and `num2` holding
5 and 7 before the call of `scanf`, `main` neither rejects the input (it
returns 0) nor uses zeros (it prints the results for 5 and 7); with other
contents of `num1` and `num2` the same input gives another output. -/
theorem main_unparsed_counterexample :
    (scanf_dd "x".data 5 7).2.2 = 0 ∧ IsInt 5 ∧ IsInt 7
      ∧ main "x".data 5 7
          = ("Enter two numbers: Sum: 12\nDifference: -2\nProduct: 35\nDivision: 0.71\n", 0)
      ∧ ¬ (Rejects (main "x".data 5 7) ∨ ZeroDefaults "x".data (main "x".data 5 7))
      ∧ main "x".data 5 7 ≠ main "x".data 1 2 := by
  decide

/-- Two texts after the same text are equal when the whole texts are. -/
theorem string_append_cancel {p x y : String} (h : p ++ x = p ++ y) : x = y := by
  have hd := congrArg String.data h
  rw [String.data_append, String.data_append] at hd
  exact String.ext (List.append_cancel_left hd)

/-- The four lines for `a`, `b` are those for `c`, `0` only when `b = 0` and
the sums wrap to the same value. -/
theorem results_eq_second_zero {a b c : Int} (h : results a b "" = results c 0 "") :
    b = 0 ∧ wrap32 (a + b) = wrap32 (c + 0) := by
  have hl : splitLines (results a b "").data = splitLines (results c 0 "").data := by rw [h]
  rw [splitLines_results, splitLines_results] at hl
  simp only [List.cons.injEq] at hl
  obtain ⟨l1, _, _, l4, _⟩ := hl
  have hb : b = 0 := by
    by_contra hb
    rw [if_pos hb, if_neg (by simp)] at l4
    exact division_label_ne_message _ l4
  refine ⟨hb, ?_⟩
  exact fmt_d_injective (String.ext (List.append_cancel_left l1))

/-- C10, amended. For every input from which `scanf` does not read two
integers, with `num1` an `int`: `num2` keeps the content it had before the
call, and so does `num1` when no integer was read; `main` does not reject
the input, it returns the exit status 0 and writes the prompt and the four
result lines for the contents of `num1` and `num2` after the call; and its
output is that of the zero-defaults policy if and only if every object that
was not assigned happens to hold 0. -/
theorem main_unparsed_output (stdin : List Char) (n1 n2 a : Int) (hn1 : IsInt n1)
    (hcount : (scanf_dd stdin n1 n2).2.2 < 2) (ha : (scanf_dd stdin n1 n2).1 = a) :
    (scanf_dd stdin n1 n2).2.1 = n2
    ∧ ((scanf_dd stdin n1 n2).2.2 = 0 → a = n1)
    ∧ main stdin n1 n2
        = ("Enter two numbers: " ++ "Sum: " ++ fmt_d (wrap32 (a + n2)) ++ "\n"
          ++ "Difference: " ++ fmt_d (wrap32 (a - n2)) ++ "\n"
          ++ "Product: " ++ fmt_d (wrap32 (a * n2)) ++ "\n"
          ++ (if n2 ≠ 0 then
                "Division: " ++ fmt_2f (F32.div (F32.ofInt a) (F32.ofInt n2)) ++ "\n"
              else "Division by zero is not allowed.\n"), 0)
    ∧ (∀ fuel : Nat, 8 ≤ fuel → run fuel (init stdin n1 n2) = some (main stdin n1 n2))
    ∧ ¬ Rejects (main stdin n1 n2)
    ∧ (ZeroDefaults stdin (main stdin n1 n2)
        ↔ n2 = 0 ∧ ((scanf_dd stdin n1 n2).2.2 = 0 → n1 = 0)) := by
  have hzero : wrap32 (0 + 0) = 0 := by decide
  have hmainout : ∀ x y : Int, (scanf_dd stdin n1 n2).1 = x → (scanf_dd stdin n1 n2).2.1 = y →
      (main stdin n1 n2).1 = prompt ++ results x y "" := by
    intro x y hx hy
    subst hx hy
    simp only [main]
    rw [results_append, empty_append_prompt]
    rfl
  cases h1 : scan_d stdin with
  | none =>
    have hs : scanf_dd stdin n1 n2 = (n1, n2, 0) := by simp [scanf_dd, h1]
    have hs0 : scanf_dd stdin 0 0 = (0, 0, 0) := by simp [scanf_dd, h1]
    have han : a = n1 := by rw [← ha, hs]
    subst han
    have hb : (scanf_dd stdin a n2).2.1 = n2 := by rw [hs]
    refine ⟨hb, fun _ => rfl, main_text stdin a n2 a n2 ha hb,
      fun fuel hfuel => run_init stdin a n2 fuel hfuel, ?_, ?_⟩
    · simp [Rejects, main]
    · unfold ZeroDefaults
      rw [hmainout a n2 ha hb, hs, hs0]
      constructor
      · intro hz
        obtain ⟨e1, e2⟩ := results_eq_second_zero (string_append_cancel hz)
        refine ⟨e1, fun _ => ?_⟩
        rw [e1, hzero, Int.add_zero, wrap32_of_isInt hn1] at e2
        exact e2
      · rintro ⟨e1, e2⟩
        rw [e1, e2 rfl]
  | some p =>
    cases h2 : scan_d (skipSpace p.2) with
    | none =>
      have hs : scanf_dd stdin n1 n2 = (p.1, n2, 1) := by simp [scanf_dd, h1, h2]
      have hs0 : scanf_dd stdin 0 0 = (p.1, 0, 1) := by simp [scanf_dd, h1, h2]
      have hap : a = p.1 := by rw [← ha, hs]
      subst hap
      have hb : (scanf_dd stdin n1 n2).2.1 = n2 := by rw [hs]
      refine ⟨hb, fun h0 => ?_, main_text stdin n1 n2 p.1 n2 ha hb,
        fun fuel hfuel => run_init stdin n1 n2 fuel hfuel, ?_, ?_⟩
      · rw [hs] at h0
        simp at h0
      · simp [Rejects, main]
      · unfold ZeroDefaults
        rw [hmainout p.1 n2 ha hb, hs, hs0]
        constructor
        · intro hz
          obtain ⟨e1, _⟩ := results_eq_second_zero (string_append_cancel hz)
          exact ⟨e1, fun h0 => by simp at h0⟩
        · rintro ⟨e1, _⟩
          rw [e1]
    | some q =>
      simp [scanf_dd, h1, h2] at hcount

/-- C10, amended, on the input `x` with 5 and 7 in `num1` and `num2` (the
output is not that of zero defaults) and with 0 and 0 (it is). -/
theorem main_unparsed_output_witness :
    IsInt 5 ∧ (scanf_dd "x".data 5 7).2.2 < 2 ∧ (scanf_dd "x".data 5 7).1 = 5
      ∧ main "x".data 5 7
          = ("Enter two numbers: Sum: 12\nDifference: -2\nProduct: 35\nDivision: 0.71\n", 0)
      ∧ ¬ ZeroDefaults "x".data (main "x".data 5 7)
      ∧ ZeroDefaults "x".data (main "x".data 0 0) :=
  ⟨by decide, by decide, by decide,
    (main_unparsed_output "x".data 5 7 5 (by decide) (by decide) (by decide)).2.2.1.trans
      (by decide),
    fun hz => absurd
      ((main_unparsed_output "x".data 5 7 5 (by decide) (by decide)
        (by decide)).2.2.2.2.2.mp hz).1 (by decide),
    (main_unparsed_output "x".data 0 0 0 (by decide) (by decide) (by decide)).2.2.2.2.2.mpr
      ⟨rfl, fun _ => rfl⟩⟩

/-! ## The integer lines within the range of `int` -/

/-- C11. For all `int`s `a`, `b` and each of `+`, `-`, `*`: whenever the
mathematical result is in the range of `int`, the line of `sum`, `diff` or
`prod` is its label followed by exactly that result in decimal; so the line
differs from the true result only on overflow (and on overflow it does
differ, since `%d` prints a value of `int`). -/
theorem int_lines_exact_iff (a b : Int) (out : String) :
    (sum a b out = out ++ "Sum: " ++ fmt_d (a + b) ++ "\n" ↔ IsInt (a + b))
    ∧ (diff a b out = out ++ "Difference: " ++ fmt_d (a - b) ++ "\n" ↔ IsInt (a - b))
    ∧ (prod a b out = out ++ "Product: " ++ fmt_d (a * b) ++ "\n" ↔ IsInt (a * b)) := by
  refine ⟨?_, ?_, ?_⟩
  · constructor
    · intro hline
      unfold sum at hline
      rw [← line_number_eq hline]; exact isInt_wrap32 _
    · intro hrange
      unfold sum; rw [wrap32_of_isInt hrange]
  · constructor
    · intro hline
      unfold diff at hline
      rw [← line_number_eq hline]; exact isInt_wrap32 _
    · intro hrange
      unfold diff; rw [wrap32_of_isInt hrange]
  · constructor
    · intro hline
      unfold prod at hline
      rw [← line_number_eq hline]; exact isInt_wrap32 _
    · intro hrange
      unfold prod; rw [wrap32_of_isInt hrange]

/-! ## Exact quotients -/

/-- The sign of an exact quotient `q` of `b * q` by `b`. -/
theorem sign_of_quotient (b q : Int) (hb0 : b ≠ 0) (hq0 : q ≠ 0) :
    (decide (b * q < 0) != decide (b < 0)) = decide (q < 0) := by
  rcases lt_or_gt_of_ne hb0 with hb | hb <;> rcases lt_or_gt_of_ne hq0 with hq | hq
  · have h : ¬ b * q < 0 := not_lt.mpr (le_of_lt (mul_pos_of_neg_of_neg hb hq))
    simp [h, hb, hq]
  · have h : b * q < 0 := mul_neg_of_neg_of_pos hb hq
    have hq2 : ¬ q < 0 := not_lt.mpr (le_of_lt hq)
    simp [h, hb, hq2]
  · have h : b * q < 0 := mul_neg_of_pos_of_neg hb hq
    have hb2 : ¬ b < 0 := not_lt.mpr (le_of_lt hb)
    simp [h, hb2, hq]
  · have h : ¬ b * q < 0 := not_lt.mpr (le_of_lt (mul_pos hb hq))
    have hb2 : ¬ b < 0 := not_lt.mpr (le_of_lt hb)
    have hq2 : ¬ q < 0 := not_lt.mpr (le_of_lt hq)
    simp [h, hb2, hq2]

/-- C12. For all `int`s `a`, `b` with `a ≠ 0`, `|a| ≤ 2^24` and `b` an exact
divisor of `a`, the line of `div` is exactly `Division: q.00`, where `q` is
the integer `a / b` in decimal, with a leading `-` when it is negative: the
conversions to `float` and the `float` division are exact on this domain. -/
theorem div_exact_divisor (a b : Int) (out : String) (ha0 : a ≠ 0)
    (ha : a.natAbs ≤ 2 ^ 24) (hdvd : b ∣ a) :
    div a b out = out ++ "Division: " ++ fmt_d (a / b) ++ ".00" ++ "\n" := by
  obtain ⟨q, rfl⟩ := hdvd
  have hb0 : b ≠ 0 := fun h => ha0 (by rw [h, Int.zero_mul])
  have hq0 : q ≠ 0 := fun h => ha0 (by rw [h, Int.mul_zero])
  have hquot : b * q / b = q := Int.mul_ediv_cancel_left q hb0
  have habs : (b * q).natAbs = b.natAbs * q.natAbs := Int.natAbs_mul b q
  have hbpos : 0 < b.natAbs := Int.natAbs_pos.mpr hb0
  have hqpos : 0 < q.natAbs := Int.natAbs_pos.mpr hq0
  rw [habs] at ha
  have hb24 : b.natAbs ≤ 2 ^ 24 :=
    Nat.le_trans (Nat.le_mul_of_pos_right _ hqpos) ha
  have hq24 : q.natAbs ≤ 2 ^ 24 :=
    Nat.le_trans (Nat.le_mul_of_pos_left _ hbpos) ha
  have hround : roundNE ((b * q).natAbs * 100) b.natAbs = q.natAbs * 100 := by
    rw [habs, show b.natAbs * q.natAbs * 100 = (q.natAbs * 100) * b.natAbs by ring]
    exact roundNE_mul_self _ _ hbpos
  rw [div_of_dyadic (b * q) b out q.natAbs 0 (habs ▸ ha) hb24 hb0 hq24 (by norm_num)
      (by rw [habs]; ring),
    hround, hundredths_whole, sign_of_quotient b q hb0 hq0, hquot]
  unfold fmt_d
  apply String.ext
  by_cases hq : q < 0
  · simp [hq, String.data_append, List.append_assoc]
  · simp [hq, String.data_append, List.append_assoc]

/-- C12 at `a = -4`, `b = 2`: the line is `Division: -2.00`. -/
theorem div_exact_divisor_witness :
    (-4 : Int) ≠ 0 ∧ (-4 : Int).natAbs ≤ 2 ^ 24 ∧ (2 : Int) ∣ -4
      ∧ div (-4) 2 "" = "" ++ "Division: " ++ fmt_d (-4 / 2) ++ ".00" ++ "\n"
      ∧ div (-4) 2 "" = "Division: -2.00\n" :=
  ⟨by decide, by decide, ⟨-2, by decide⟩,
    div_exact_divisor (-4) 2 "" (by decide) (by decide) ⟨-2, by decide⟩, by decide⟩

/-! ## The dividend zero -/

/-- C13. For `a = 0` and every `int` `b < 0` the line of `div` is
`Division: -0.00` (the `float` quotient is the negative zero, and `%.2f`
prints its sign); for `a = 0` and every `int` `b > 0` it is
`Division: 0.00`. -/
theorem div_zero_sign (b : Int) (out : String) (hb : IsInt b) :
    (b < 0 → div 0 b out = out ++ "Division: -0.00\n")
    ∧ (0 < b → div 0 b out = out ++ "Division: 0.00\n") := by
  constructor
  · intro hneg
    rw [div_zero_dividend b out hb (ne_of_lt hneg), if_pos hneg]
    apply String.ext
    simp [String.data_append, List.append_assoc]
  · intro hpos
    rw [div_zero_dividend b out hb (ne_of_gt hpos), if_neg (not_lt.mpr (le_of_lt hpos))]
    apply String.ext
    simp [String.data_append, List.append_assoc]

/-- C13 at `b = -5` and at `b = 5`. -/
theorem div_zero_sign_witness :
    IsInt (-5) ∧ IsInt 5 ∧ div 0 (-5) "" = "" ++ "Division: -0.00\n"
      ∧ div 0 5 "" = "" ++ "Division: 0.00\n"
      ∧ F32.div (F32.ofInt 0) (F32.ofInt (-5)) = F32.fin true 0 :=
  ⟨by decide, by decide, (div_zero_sign (-5) "" (by decide)).1 (by decide),
    (div_zero_sign 5 "" (by decide)).2 (by decide), by decide⟩

end Cal
